import Mathlib

/-!
Shallow embedding of the DELTA Branch Inventory Ledger and Inter-Branch
Transfer Reservation Engine (src/inventory/models.py, src/inventory/views.py).

Modelling conventions:
* Database tables are Lean lists of rows; `find?` models `.filter(...).first()`
  and `get_or_create` (Django returns the first matching row).
* Rows are updated through `updateFirst`, which rewrites the first row the
  predicate selects, matching Django's save-by-primary-key on a table whose
  keys are unique.  Primary-key uniqueness of `StockLocation.id` is the `WF`
  predicate below.
* `transaction.atomic` blocks are all-or-nothing: an operation returns
  `Except.error e` (the raised `ValueError` / reported view error) and then no
  write of the aborted block survives, or `Except.ok` with the committed state.
* `timezone.now()` and `request.user` are passed in as `now` / `actor`
  parameters; integers stand for primary keys of parts, branches, locations
  and users.  Python `str.strip()` is modelled by `strip` on the character
  list of the string (kernel-reducible, unlike `String.trim`).
* Authorization guards (`@manager_required`, `_can_approve_transfer`, active
  branch checks) are external collaborators per spec section 1 and are not part
  of the embedded core.
-/

set_option linter.unusedVariables false

namespace Delta

/-- Python `(s or "").strip()` being empty/blank. -/
def is_blank (s : String) : Bool := s.data.all Char.isWhitespace

/-- Python `s.strip()`. -/
def strip (s : String) : String :=
  ⟨((s.data.dropWhile Char.isWhitespace).reverse.dropWhile Char.isWhitespace).reverse⟩

/-- `DEFAULT_LOCATION_CODE` from models.py. -/
def DEFAULT_LOCATION_CODE : String := "UNASSIGNED"

/-- A `Location` row: named storage slot inside a branch. -/
structure Location where
  locId : Nat
  branch : Nat
  code : String
deriving DecidableEq

/-- A `StockLocation` row: (part, branch, location) -> quantity, `rowId` is the
auto primary key (the `id` used as final ordering tie-break). -/
structure StockLocation where
  rowId : Nat
  part : Nat
  branch : Nat
  location : Nat
  quantity : Nat
deriving DecidableEq

/-- A `Stock` row: the denormalized (part, branch) aggregate. -/
structure Stock where
  part : Nat
  branch : Nat
  quantity : Nat
deriving DecidableEq

/-- A `StockMovement` row (append-only ledger log). -/
structure StockMovement where
  part : Nat
  branch : Nat
  qty : Nat
  action : String
  from_location : Option Nat
  to_location : Option Nat
  reason : String
  actor : Option Nat
deriving DecidableEq

/-- `TransferRequest.Status` choices. -/
inductive TransferStatus where
  | requested
  | approved
  | rejected
  | picked_up
  | delivered
  | received
deriving DecidableEq

/-- A `TransferRequest` row. -/
structure TransferRequest where
  tid : Nat
  part : Nat
  quantity : Nat
  source_branch : Nat
  destination_branch : Nat
  requested_by : Nat
  approved_by : Option Nat
  rejected_by : Option Nat
  driver : Option Nat
  received_by : Option Nat
  status : TransferStatus
  reserved_quantity : Nat
  rejection_reason : String
  approved_at : Option Nat
  rejected_at : Option Nat
  picked_up_at : Option Nat
  delivered_at : Option Nat
  received_at : Option Nat
deriving DecidableEq

/-- The relational store: the four ledger tables plus the transfer table.
`nextId` supplies fresh auto-increment primary keys. -/
structure DB where
  locations : List Location
  stock_locations : List StockLocation
  stocks : List Stock
  movements : List StockMovement
  transfers : List TransferRequest
  nextId : Nat
deriving DecidableEq

/-- Typed errors (spec section 7); each maps to a raised `ValueError` or a view
error message in the source. -/
inductive LedgerError where
  | invalidQuantity
  | locationMismatch
  | sameLocation
  | insufficientStock
  | insufficientAvailable (available : Nat)
  | notFound
  | missingReason
  | conflict
deriving DecidableEq

/-- Rewrite the first row selected by `p` (Django object save by primary key). -/
def updateFirst (p : α → Bool) (f : α → α) : List α → List α
  | [] => []
  | a :: l => if p a then f a :: l else a :: updateFirst p f l

/-- `StockMovement.save`: `self.reason = (self.reason or "").strip() or "system"`. -/
def normalizeReason (reason : String) : String :=
  if is_blank reason then "system" else strip reason

/-- `Stock.objects.filter(part=part, branch=branch).first()`. -/
def findStock (db : DB) (part branch : Nat) : Option Stock :=
  db.stocks.find? (fun s => s.part == part && s.branch == branch)

/-- The pair's aggregate reading: the `Stock` row's quantity, `0` when the row
is absent. -/
def aggValue (db : DB) (part branch : Nat) : Nat :=
  match findStock db part branch with
  | some s => s.quantity
  | none => 0

/-- Sum of `StockLocation.quantity` over a row list for one (part, branch). -/
def locSumL (part branch : Nat) (l : List StockLocation) : Nat :=
  ((l.filter (fun r => r.part == part && r.branch == branch)).map
    (fun r => r.quantity)).sum

/-- `Σ StockLocation.quantity` over the pair's rows in the store. -/
def locSum (db : DB) (part branch : Nat) : Nat :=
  locSumL part branch db.stock_locations

/-- Sum of `StockLocation.quantity` over the rows of one
(part, branch, location) triple. -/
def locQtySum (db : DB) (part branch locId : Nat) : Nat :=
  ((db.stock_locations.filter
      (fun r => r.part == part && r.branch == branch && r.location == locId)).map
    (fun r => r.quantity)).sum

/-- The aggregate invariant for one pair: `Stock.quantity == Σ
StockLocation.quantity` (an absent `Stock` row reads as 0). -/
def pairInSync (db : DB) (part branch : Nat) : Prop :=
  aggValue db part branch = locSum db part branch

/-- The pair has no `StockLocation` rows at all (not even zero-quantity ones):
the situation in which the legacy seeding helper may fire. -/
def noPairRows (db : DB) (part branch : Nat) : Prop :=
  ∀ r ∈ db.stock_locations, ¬(r.part = part ∧ r.branch = branch)

/-- `sync_stock_total_from_locations` (models.py 299-313). -/
def sync_stock_total_from_locations (db : DB) (part branch : Nat) : DB :=
  let total := locSum db part branch
  match findStock db part branch with
  | some stock =>
      if stock.quantity ≠ total then
        { db with
            stocks := updateFirst (fun s => s.part == part && s.branch == branch)
              (fun s => { s with quantity := total }) db.stocks }
      else db
  | none =>
      if 0 < total then
        { db with stocks := db.stocks ++ [{ part := part, branch := branch, quantity := total }] }
      else db

/-- `get_or_create_default_location` (models.py 287-296). -/
def get_or_create_default_location (db : DB) (branch : Nat) : Location × DB :=
  match db.locations.find? (fun l => l.branch == branch && l.code == DEFAULT_LOCATION_CODE) with
  | some l => (l, db)
  | none =>
      let l : Location := { locId := db.nextId, branch := branch, code := DEFAULT_LOCATION_CODE }
      (l, { db with locations := db.locations ++ [l], nextId := db.nextId + 1 })

/-- `ensure_stock_locations_seeded_from_branch_stock` (models.py 316-327). -/
def ensure_stock_locations_seeded_from_branch_stock (db : DB) (stock : Stock) : DB :=
  if stock.quantity = 0 then db
  else if db.stock_locations.any (fun r => r.part == stock.part && r.branch == stock.branch) then db
  else
    let res := get_or_create_default_location db stock.branch
    { res.2 with
        stock_locations := res.2.stock_locations ++
          [{ rowId := res.2.nextId, part := stock.part, branch := stock.branch,
             location := res.1.locId, quantity := stock.quantity }],
        nextId := res.2.nextId + 1 }

/-- Shared prologue of the three ledger mutators: lock the `Stock` row and, when
it exists, opportunistically seed legacy aggregate-only data. -/
def seedIfStock (db : DB) (part branch : Nat) : DB :=
  match findStock db part branch with
  | some stock => ensure_stock_locations_seeded_from_branch_stock db stock
  | none => db

/-- The body of `add_stock_to_location`'s atomic block after seeding:
`get_or_create` the (part, branch, location) row at 0, increment it, append the
movement and recompute the aggregate. -/
def addApply (db1 : DB) (part branch : Nat) (target : Location) (qty : Nat)
    (reason : String) (actor : Option Nat) (action : String) : DB × StockMovement :=
  let db2 :=
    if db1.stock_locations.any
        (fun r => r.part == part && r.branch == branch && r.location == target.locId) then db1
    else
      { db1 with
          stock_locations := db1.stock_locations ++
            [{ rowId := db1.nextId, part := part, branch := branch,
               location := target.locId, quantity := 0 }],
          nextId := db1.nextId + 1 }
  let db3 :=
    { db2 with
        stock_locations := updateFirst
          (fun r => r.part == part && r.branch == branch && r.location == target.locId)
          (fun r => { r with quantity := r.quantity + qty }) db2.stock_locations }
  let mv : StockMovement :=
    { part := part, branch := branch, qty := qty, action := action,
      from_location := none, to_location := some target.locId,
      reason := normalizeReason reason, actor := actor }
  let db4 := { db3 with movements := db3.movements ++ [mv] }
  (sync_stock_total_from_locations db4 part branch, mv)

/-- `add_stock_to_location` (models.py 330-377). -/
def add_stock_to_location (db : DB) (part branch : Nat) (quantity : Int)
    (reason : String) (actor : Option Nat) (location : Option Location)
    (action : String) : Except LedgerError (DB × StockMovement) :=
  if quantity ≤ 0 then .error .invalidQuantity
  else
    let tdb : Location × DB :=
      match location with
      | some l => (l, db)
      | none => get_or_create_default_location db branch
    if tdb.1.branch ≠ branch then .error .locationMismatch
    else
      .ok (addApply (seedIfStock tdb.2 part branch) part branch tdb.1 quantity.toNat
        reason actor action)

/-- Greedy drain order used by `remove_stock_from_locations`:
`order_by("-quantity", "location__code", "id")`. -/
def codeOf (db : DB) (locId : Nat) : String :=
  match db.locations.find? (fun l => l.locId == locId) with
  | some l => l.code
  | none => ""

/-- The drain ordering relation: strictly larger quantity first, ties broken by
ascending location code, then ascending row id. -/
def drainLE (db : DB) (a b : StockLocation) : Prop :=
  b.quantity < a.quantity ∨
    (a.quantity = b.quantity ∧
      (codeOf db a.location < codeOf db b.location ∨
        (codeOf db a.location = codeOf db b.location ∧ a.rowId ≤ b.rowId)))

instance (db : DB) : DecidableRel (drainLE db) := fun a b => by
  unfold drainLE; infer_instance

/-- Ascending `order_by("id")` used when a specific source location is given. -/
def idLE (a b : StockLocation) : Prop := a.rowId ≤ b.rowId

instance : DecidableRel idLE := fun a b => by unfold idLE; infer_instance

/-- The pair's positive-quantity rows
(`filter(part=part, branch=branch, quantity__gt=0)`). -/
def positiveRows (db : DB) (part branch : Nat) : List StockLocation :=
  db.stock_locations.filter
    (fun r => r.part == part && r.branch == branch && 0 < r.quantity)

/-- The ordered row list the greedy drain walks when no location is given. -/
def drainRows (db : DB) (part branch : Nat) : List StockLocation :=
  List.insertionSort (drainLE db) (positiveRows db part branch)

/-- The `for stock_row in stock_rows` loop of `remove_stock_from_locations`:
pair each drained row with `taken = min(stock_row.quantity, remaining)`,
stopping once the remainder reaches zero. -/
def drainPlan (rows : List StockLocation) (remaining : Nat) :
    List (StockLocation × Nat) :=
  match rows with
  | [] => []
  | r :: rest =>
      if remaining = 0 then []
      else
        let taken := min r.quantity remaining
        (r, taken) :: drainPlan rest (remaining - taken)

/-- The ordered row list the drain walks: `order_by("id")` within the given
location when one is specified, otherwise the full greedy drain order. -/
def rowsOf (db1 : DB) (part branch : Nat) (from_location : Option Location) :
    List StockLocation :=
  match from_location with
  | some fl =>
      List.insertionSort idLE
        ((positiveRows db1 part branch).filter (fun r => r.location == fl.locId))
  | none => drainRows db1 part branch

/-- The movement rows the drain loop emits: one per location actually touched. -/
def drainMovements (part branch : Nat) (act reason : String) (actor : Option Nat)
    (plan : List (StockLocation × Nat)) : List StockMovement :=
  plan.map (fun x =>
    ({ part := part, branch := branch, qty := x.2, action := act,
       from_location := some x.1.location, to_location := none,
       reason := normalizeReason reason, actor := actor } : StockMovement))

/-- The total quantity a `RemoveStock` call may draw on: the specified
location's quantity when a location is given, otherwise the pair's sum. -/
def removableOf (db1 : DB) (part branch : Nat) (from_location : Option Location) : Nat :=
  match from_location with
  | some fl => locQtySum db1 part branch fl.locId
  | none => locSum db1 part branch

/-- Apply the drain loop's row saves: each step writes back one drained row
with `taken` subtracted (save by primary key). -/
def applyDrain (plan : List (StockLocation × Nat)) (l : List StockLocation) :
    List StockLocation :=
  plan.foldl
    (fun acc x => updateFirst (fun r => r.rowId == x.1.rowId)
      (fun r => { r with quantity := r.quantity - x.2 }) acc)
    l

/-- `remove_stock_from_locations` (models.py 380-441). -/
def remove_stock_from_locations (db : DB) (part branch : Nat) (quantity : Int)
    (reason : String) (actor : Option Nat) (from_location : Option Location)
    (action : String) : Except LedgerError (DB × List StockMovement) :=
  if quantity ≤ 0 then .error .invalidQuantity
  else if from_location.any (fun l => l.branch != branch) then .error .locationMismatch
  else
    let qty := quantity.toNat
    let db1 := seedIfStock db part branch
    let rows := rowsOf db1 part branch from_location
    let plan := drainPlan rows qty
    let takenTotal := (plan.map (fun x => x.2)).sum
    if takenTotal < qty then .error .insufficientStock
    else
      let new_sl := applyDrain plan db1.stock_locations
      let movs := drainMovements part branch action reason actor plan
      let db2 := { db1 with stock_locations := new_sl, movements := db1.movements ++ movs }
      .ok (sync_stock_total_from_locations db2 part branch, movs)

/-- The body of `move_stock_between_locations`'s atomic block after locating a
sufficient source row: `get_or_create` the destination row, shift `qty` from
source to destination, append the movement and recompute the aggregate. -/
def moveApply (db1 : DB) (part branch : Nat) (source : StockLocation)
    (from_location to_location : Location) (qty : Nat) (reason : String)
    (actor : Option Nat) (action : String) : DB × StockMovement :=
  let db2 :=
    if db1.stock_locations.any
        (fun r => r.part == part && r.branch == branch && r.location == to_location.locId) then db1
    else
      { db1 with
          stock_locations := db1.stock_locations ++
            [{ rowId := db1.nextId, part := part, branch := branch,
               location := to_location.locId, quantity := 0 }],
          nextId := db1.nextId + 1 }
  let db3 :=
    { db2 with
        stock_locations := updateFirst (fun r => r.rowId == source.rowId)
          (fun r => { r with quantity := r.quantity - qty }) db2.stock_locations }
  let db4 :=
    { db3 with
        stock_locations := updateFirst
          (fun r => r.part == part && r.branch == branch && r.location == to_location.locId)
          (fun r => { r with quantity := r.quantity + qty }) db3.stock_locations }
  let mv : StockMovement :=
    { part := part, branch := branch, qty := qty, action := action,
      from_location := some from_location.locId,
      to_location := some to_location.locId,
      reason := normalizeReason reason, actor := actor }
  let db5 := { db4 with movements := db4.movements ++ [mv] }
  (sync_stock_total_from_locations db5 part branch, mv)

/-- `move_stock_between_locations` (models.py 444-502). -/
def move_stock_between_locations (db : DB) (part branch : Nat) (quantity : Int)
    (from_location to_location : Location) (reason : String) (actor : Option Nat)
    (action : String) : Except LedgerError (DB × StockMovement) :=
  if quantity ≤ 0 then .error .invalidQuantity
  else if from_location.locId = to_location.locId then .error .sameLocation
  else if from_location.branch ≠ branch ∨ to_location.branch ≠ branch then
    .error .locationMismatch
  else
    let db1 := seedIfStock db part branch
    match db1.stock_locations.find?
        (fun r => r.part == part && r.branch == branch && r.location == from_location.locId) with
    | none => .error .insufficientStock
    | some source =>
        if source.quantity < quantity.toNat then .error .insufficientStock
        else
          .ok (moveApply db1 part branch source from_location to_location quantity.toNat
            reason actor action)

/-- The reservation-holding statuses {approved, picked_up, delivered}. -/
def activeStatus (s : TransferStatus) : Bool :=
  decide (s = .approved) || decide (s = .picked_up) || decide (s = .delivered)

/-- `_reserved_quantity_for_part_branch` (views.py 274-289). -/
def reserved_quantity_for_part_branch (db : DB) (part branch : Nat)
    (exclude_transfer_id : Option Nat) : Nat :=
  ((db.transfers.filter (fun t =>
      t.part == part && t.source_branch == branch && activeStatus t.status &&
        (match exclude_transfer_id with
         | some e => t.tid != e
         | none => true))).map (fun t => t.reserved_quantity)).sum

/-- `_available_stock_quantity` (views.py 292-298):
`max(stock.quantity - reserved, 0)` over Python integers. -/
def available_stock_quantity (db : DB) (stock : Stock)
    (exclude_transfer_id : Option Nat) : Nat :=
  ((stock.quantity : Int) -
    (reserved_quantity_for_part_branch db stock.part stock.branch exclude_transfer_id : Int)).toNat

/-- `TransferRequest.objects.filter(id=transfer_id).first()`. -/
def findTransfer (db : DB) (tid : Nat) : Option TransferRequest :=
  db.transfers.find? (fun t => t.tid == tid)

/-- `transfer_approve` (views.py 1309-1392), the core after the external
authorization guards. -/
def transfer_approve (db : DB) (transfer_id : Nat) (reason : String)
    (actor : Nat) (now : Nat) : Except LedgerError DB :=
  match findTransfer db transfer_id with
  | none => .error .notFound
  | some t =>
      if is_blank reason then .error .missingReason
      else if t.status ≠ .requested then .error .conflict
      else
        match findStock db t.part t.source_branch with
        | none => .error .notFound
        | some source_stock =>
            let available_qty := available_stock_quantity db source_stock (some transfer_id)
            if available_qty < t.quantity then
              .error (.insufficientAvailable available_qty)
            else
              .ok { db with
                      transfers := updateFirst (fun x => x.tid == transfer_id)
                        (fun x => { x with
                          status := .approved,
                          reserved_quantity := x.quantity,
                          approved_by := some actor,
                          approved_at := some now,
                          rejected_by := none,
                          rejection_reason := "",
                          rejected_at := none }) db.transfers }

/-- `transfer_reject` (views.py 1399-1458). -/
def transfer_reject (db : DB) (transfer_id : Nat) (reason : String)
    (actor : Nat) (now : Nat) : Except LedgerError DB :=
  match findTransfer db transfer_id with
  | none => .error .notFound
  | some t =>
      if is_blank reason then .error .missingReason
      else if ¬ (t.status = .requested ∨ t.status = .approved) then .error .conflict
      else
        .ok { db with
                transfers := updateFirst (fun x => x.tid == transfer_id)
                  (fun x => { x with
                    status := .rejected,
                    reserved_quantity := 0,
                    rejected_by := some actor,
                    rejected_at := some now,
                    rejection_reason := strip reason }) db.transfers }

/-- `transfer_mark_picked_up` (views.py 1486-1526). -/
def transfer_mark_picked_up (db : DB) (transfer_id : Nat) (reason : String)
    (actor : Nat) (now : Nat) : Except LedgerError DB :=
  match findTransfer db transfer_id with
  | none => .error .notFound
  | some t =>
      if is_blank reason then .error .missingReason
      else if t.status ≠ .approved then .error .conflict
      else
        .ok { db with
                transfers := updateFirst (fun x => x.tid == transfer_id)
                  (fun x => { x with
                    status := .picked_up,
                    driver := some actor,
                    picked_up_at := some now }) db.transfers }

/-- `transfer_mark_delivered` (views.py 1531-1569). -/
def transfer_mark_delivered (db : DB) (transfer_id : Nat) (reason : String)
    (actor : Nat) (now : Nat) : Except LedgerError DB :=
  match findTransfer db transfer_id with
  | none => .error .notFound
  | some t =>
      if is_blank reason then .error .missingReason
      else if t.status ≠ .picked_up then .error .conflict
      else
        .ok { db with
                transfers := updateFirst (fun x => x.tid == transfer_id)
                  (fun x => { x with
                    status := .delivered,
                    delivered_at := some now }) db.transfers }

/-- `transfer_confirm_receive` (views.py 1601-1743).  The two ledger calls run
inside the same `transaction.atomic` block as the status flip; a `ValueError`
raised by either rolls everything back, so an error result carries no state. -/
def transfer_confirm_receive (db : DB) (transfer_id : Nat) (reason : String)
    (actor : Nat) (now : Nat) : Except LedgerError DB :=
  match findTransfer db transfer_id with
  | none => .error .notFound
  | some t =>
      if is_blank reason then .error .missingReason
      else if t.status ≠ .delivered then .error .conflict
      else
        match findStock db t.part t.source_branch with
        | none => .error .notFound
        | some source_stock =>
            if source_stock.quantity < t.quantity then .error .insufficientStock
            else
              let db1 :=
                if (findStock db t.part t.destination_branch).isSome then db
                else
                  { db with
                      stocks := db.stocks ++
                        [{ part := t.part, branch := t.destination_branch, quantity := 0 }] }
              let db2 := ensure_stock_locations_seeded_from_branch_stock db1 source_stock
              match remove_stock_from_locations db2 t.part t.source_branch
                  (t.quantity : Int) (strip reason) (some actor) none "transfer_out" with
              | .error e => .error e
              | .ok (db3, _) =>
                  match add_stock_to_location db3 t.part t.destination_branch
                      (t.quantity : Int) (strip reason) (some actor) none "transfer_in" with
                  | .error e => .error e
                  | .ok (db4, _) =>
                      .ok { db4 with
                              transfers := updateFirst (fun x => x.tid == transfer_id)
                                (fun x => { x with
                                  status := .received,
                                  reserved_quantity := 0,
                                  received_by := some actor,
                                  received_at := some now }) db4.transfers }

/-- The five lifecycle actions of the transfer state machine. -/
inductive TransferOp where
  | approve (transfer_id : Nat) (reason : String) (actor : Nat) (now : Nat)
  | reject (transfer_id : Nat) (reason : String) (actor : Nat) (now : Nat)
  | pickup (transfer_id : Nat) (reason : String) (actor : Nat) (now : Nat)
  | deliver (transfer_id : Nat) (reason : String) (actor : Nat) (now : Nat)
  | receive (transfer_id : Nat) (reason : String) (actor : Nat) (now : Nat)

/-- Dispatch a lifecycle action to its view core. -/
def applyTransferOp (db : DB) : TransferOp → Except LedgerError DB
  | .approve tid reason actor now => transfer_approve db tid reason actor now
  | .reject tid reason actor now => transfer_reject db tid reason actor now
  | .pickup tid reason actor now => transfer_mark_picked_up db tid reason actor now
  | .deliver tid reason actor now => transfer_mark_delivered db tid reason actor now
  | .receive tid reason actor now => transfer_confirm_receive db tid reason actor now

/-- The transfer id an action addresses. -/
def TransferOp.tid : TransferOp → Nat
  | .approve tid _ _ _ => tid
  | .reject tid _ _ _ => tid
  | .pickup tid _ _ _ => tid
  | .deliver tid _ _ _ => tid
  | .receive tid _ _ _ => tid

/-- The reason string an action carries. -/
def TransferOp.reason : TransferOp → String
  | .approve _ reason _ _ => reason
  | .reject _ reason _ _ => reason
  | .pickup _ reason _ _ => reason
  | .deliver _ reason _ _ => reason
  | .receive _ reason _ _ => reason

/-- Whether a status admits an action (the view status guards). -/
def TransferOp.admits : TransferOp → TransferStatus → Bool
  | .approve _ _ _ _, s => decide (s = .requested)
  | .reject _ _ _ _, s => decide (s = .requested) || decide (s = .approved)
  | .pickup _ _ _ _, s => decide (s = .approved)
  | .deliver _ _ _ _, s => decide (s = .picked_up)
  | .receive _ _ _ _, s => decide (s = .delivered)

/-- The six legal transitions of spec section 4.4. -/
def allowedTransition (a b : TransferStatus) : Prop :=
  (a = .requested ∧ b = .approved) ∨
  (a = .approved ∧ b = .picked_up) ∨
  (a = .picked_up ∧ b = .delivered) ∨
  (a = .delivered ∧ b = .received) ∨
  (a = .requested ∧ b = .rejected) ∨
  (a = .approved ∧ b = .rejected)

/-- The state a transaction leaves behind: the new state on commit, the
original state when the unit of work aborted. -/
def commitT (db : DB) : Except LedgerError DB → DB
  | .ok db2 => db2
  | .error _ => db

/-- Commit wrapper for ledger calls returning a payload next to the state. -/
def commitL (db : DB) : Except LedgerError (DB × α) → DB
  | .ok x => x.1
  | .error _ => db

/-- Primary-key uniqueness and freshness for `StockLocation` rows: what the
database's auto-increment primary key guarantees. -/
def WF (db : DB) : Prop :=
  (db.stock_locations.map (fun r => r.rowId)).Nodup ∧
    ∀ r ∈ db.stock_locations, r.rowId < db.nextId

/-! ### Concrete states used to exercise the operations -/

/-- Branch 1's default location. -/
def exLocU1 : Location := { locId := 1, branch := 1, code := "UNASSIGNED" }

/-- Branch 1, shelf A3. -/
def exLocA3 : Location := { locId := 2, branch := 1, code := "A3" }

/-- Branch 1, shelf B1. -/
def exLocB1 : Location := { locId := 3, branch := 1, code := "B1" }

/-- Scenario A/B state: branch 1 holds 7 units at A3 and 3 at B1 for part 1. -/
def scenA_db : DB :=
  { locations := [exLocU1, exLocA3, exLocB1],
    stock_locations := [{ rowId := 10, part := 1, branch := 1, location := 2, quantity := 7 },
                        { rowId := 11, part := 1, branch := 1, location := 3, quantity := 3 }],
    stocks := [{ part := 1, branch := 1, quantity := 10 }],
    movements := [],
    transfers := [],
    nextId := 20 }

/-- Outcome state of scenario A (`RemoveStock(qty=8)` on `scenA_db`). -/
def scenA_after : DB :=
  commitL scenA_db (remove_stock_from_locations scenA_db 1 1 8 "scenario" none none "remove")

/-- Movements created by scenario A. -/
def scenA_movs : List StockMovement :=
  match remove_stock_from_locations scenA_db 1 1 8 "scenario" none none "remove" with
  | .ok x => x.2
  | .error _ => []

/-- A requested transfer of 5 units of part 1 from branch 1 to branch 2. -/
def exT1 : TransferRequest :=
  { tid := 1, part := 1, quantity := 5, source_branch := 1, destination_branch := 2,
    requested_by := 7, approved_by := none, rejected_by := none, driver := none,
    received_by := none, status := .requested, reserved_quantity := 0,
    rejection_reason := "", approved_at := none, rejected_at := none,
    picked_up_at := none, delivered_at := none, received_at := none }

/-- A second requested transfer over the same source stock (3 units). -/
def exT2 : TransferRequest :=
  { exT1 with tid := 2, quantity := 3 }

/-- A delivered transfer of 5 units of part 1 from branch 1 to branch 2,
holding its reservation. -/
def exT3 : TransferRequest :=
  { exT1 with
      status := .delivered, reserved_quantity := 5,
      approved_by := some 9, approved_at := some 100,
      driver := some 8, picked_up_at := some 110, delivered_at := some 120 }

/-- Branch 1 holds 5 units of part 1 at the default location; transfer `exT1`
is requested. -/
def c8_db0 : DB :=
  { locations := [exLocU1],
    stock_locations := [{ rowId := 10, part := 1, branch := 1, location := 1, quantity := 5 }],
    stocks := [{ part := 1, branch := 1, quantity := 5 }],
    movements := [],
    transfers := [exT1],
    nextId := 20 }

/-- `c8_db0` after `exT1` is approved (reservation of 5 placed). -/
def c8_db1 : DB := commitT c8_db0 (transfer_approve c8_db0 1 "approve transfer" 9 100)

/-- `c8_db1` after an intervening `RemoveStock` of 3 units (a scan remove
checks only on-hand quantity, not availability). -/
def c8_db2 : DB :=
  commitL c8_db1 (remove_stock_from_locations c8_db1 1 1 3 "stock correction" none none
    "scan_remove")

/-- Legacy state for the seeding corner: positive aggregate, no location rows. -/
def c10_db0 : DB :=
  { locations := [exLocU1],
    stock_locations := [],
    stocks := [{ part := 1, branch := 1, quantity := 5 }],
    movements := [],
    transfers := [],
    nextId := 20 }

/-- Same as `c10_db0` except a zero-quantity row exists at the default
location. -/
def c10_dbZ : DB :=
  { c10_db0 with
      stock_locations := [{ rowId := 10, part := 1, branch := 1, location := 1, quantity := 0 }] }

/-- Result state of removing 5 from `c10_db0` at the default location. -/
def c10_db1 : DB :=
  commitL c10_db0 (remove_stock_from_locations c10_db0 1 1 5 "remove" none (some exLocU1)
    "remove")

/-- Two requested transfers (5 and 3 units) against 5 on hand at branch 1. -/
def c9_db0 : DB :=
  { c8_db0 with transfers := [exT1, exT2] }

/-- Delivered transfer `exT3` ready to receive; branch 1 holds the 5 units. -/
def c4_db0 : DB :=
  { c8_db0 with transfers := [exT3] }

/-- A fallback movement value used when destructuring an `Except` payload. -/
def mvDefault : StockMovement :=
  { part := 0, branch := 0, qty := 0, action := "", from_location := none,
    to_location := none, reason := "", actor := none }

end Delta

namespace Delta

/-! ### List-level helper lemmas -/

theorem updateFirst_of_forall_not {p : α → Bool} {f : α → α} {l : List α}
    (h : ∀ a ∈ l, p a = false) : updateFirst p f l = l := by
  induction l with
  | nil => rfl
  | cons a t ih =>
      have ha := h a (List.mem_cons_self a t)
      simp only [updateFirst, ha, Bool.false_eq_true, if_false, List.cons.injEq, true_and]
      exact ih fun x hx => h x (List.mem_cons_of_mem a hx)

theorem find?_decomp {p : α → Bool} {l : List α} {x : α}
    (h : l.find? p = some x) (f : α → α) :
    ∃ l₁ l₂, l = l₁ ++ x :: l₂ ∧ (∀ y ∈ l₁, p y = false) ∧
      updateFirst p f l = l₁ ++ f x :: l₂ := by
  induction l with
  | nil => simp at h
  | cons a t ih =>
      by_cases hp : p a
      · rw [List.find?_cons_of_pos _ hp] at h
        have hax := Option.some.inj h
        subst hax
        exact ⟨[], t, by simp, by simp, by simp [updateFirst, hp]⟩
      · rw [List.find?_cons_of_neg _ hp] at h
        obtain ⟨l₁, l₂, he, hnone, hupd⟩ := ih h
        refine ⟨a :: l₁, l₂, by simp [he], ?_, ?_⟩
        · intro y hy
          rcases List.mem_cons.mp hy with rfl | hy
          · simpa using hp
          · exact hnone y hy
        · simp [updateFirst, hp, hupd]

theorem updateFirst_of_find?_none {p : α → Bool} {f : α → α} {l : List α}
    (h : l.find? p = none) : updateFirst p f l = l :=
  updateFirst_of_forall_not (by simpa [List.find?_eq_none] using h)

theorem map_updateFirst {p : α → Bool} {f : α → α} {g : α → β} {l : List α}
    (h : ∀ a, g (f a) = g a) : (updateFirst p f l).map g = l.map g := by
  induction l with
  | nil => rfl
  | cons a t ih =>
      by_cases hp : p a
      · simp [updateFirst, hp, h a]
      · simp [updateFirst, hp, ih]

theorem mem_updateFirst_of_not_pred {p : α → Bool} {f : α → α} {l : List α} {a : α}
    (ha : a ∈ l) (hpa : p a = false) : a ∈ updateFirst p f l := by
  induction l with
  | nil => simp at ha
  | cons b t ih =>
      by_cases hp : p b
      · rcases List.mem_cons.mp ha with rfl | ha
        · rw [hpa] at hp; simp at hp
        · simp [updateFirst, hp, List.mem_cons_of_mem _ ha]
      · rcases List.mem_cons.mp ha with rfl | ha
        · simp [updateFirst, hp]
        · simp [updateFirst, hp, ih ha]

theorem find?_updateFirst_disjoint {p q : α → Bool} {f : α → α} {l : List α}
    (h : ∀ a, p a = true → q a = false ∧ q (f a) = false) :
    (updateFirst p f l).find? q = l.find? q := by
  induction l with
  | nil => rfl
  | cons a t ih =>
      by_cases hp : p a
      · obtain ⟨h1, h2⟩ := h a hp
        rw [show updateFirst p f (a :: t) = f a :: t by simp [updateFirst, hp]]
        rw [List.find?_cons_of_neg _ (by simp [h2]), List.find?_cons_of_neg _ (by simp [h1])]
      · rw [show updateFirst p f (a :: t) = a :: updateFirst p f t by simp [updateFirst, hp]]
        by_cases hq : q a
        · rw [List.find?_cons_of_pos _ hq, List.find?_cons_of_pos _ hq]
        · rw [List.find?_cons_of_neg _ hq, List.find?_cons_of_neg _ hq]
          exact ih

theorem find?_updateFirst_self {p : α → Bool} {f : α → α} {l : List α}
    (h : ∀ a, p (f a) = p a) :
    (updateFirst p f l).find? p = (l.find? p).map f := by
  induction l with
  | nil => rfl
  | cons a t ih =>
      by_cases hp : p a
      · rw [show updateFirst p f (a :: t) = f a :: t by simp [updateFirst, hp]]
        rw [List.find?_cons_of_pos _ ((h a).trans (by simpa using hp)),
          List.find?_cons_of_pos _ (by simpa using hp)]
        rfl
      · rw [show updateFirst p f (a :: t) = a :: updateFirst p f t by simp [updateFirst, hp]]
        rw [List.find?_cons_of_neg _ hp, List.find?_cons_of_neg _ hp]
        exact ih

theorem find?_key_of_nodup {key : α → Nat} {l : List α} {x : α}
    (hN : (l.map key).Nodup) (hx : x ∈ l) :
    l.find? (fun a => key a == key x) = some x := by
  induction l with
  | nil => simp at hx
  | cons a t ih =>
      simp only [List.map_cons, List.nodup_cons] at hN
      rcases List.mem_cons.mp hx with rfl | hx
      · exact List.find?_cons_of_pos _ (by simp)
      · have hne : key a ≠ key x := by
          intro he
          exact hN.1 (he ▸ List.mem_map_of_mem key hx)
        rw [List.find?_cons_of_neg _ (by simpa using hne)]
        exact ih hN.2 hx

end Delta

namespace Delta

/-! ### Sum and lookup lemmas -/

/-- Row membership predicate for a pair. -/
def pairP (part branch : Nat) (r : StockLocation) : Bool :=
  r.part == part && r.branch == branch

theorem locSumL_eq (part branch : Nat) (l : List StockLocation) :
    locSumL part branch l = ((l.filter (pairP part branch)).map (fun r => r.quantity)).sum := rfl

theorem locSumL_append (part branch : Nat) (l₁ l₂ : List StockLocation) :
    locSumL part branch (l₁ ++ l₂) = locSumL part branch l₁ + locSumL part branch l₂ := by
  simp [locSumL, List.filter_append]

theorem locSumL_cons (part branch : Nat) (r : StockLocation) (l : List StockLocation) :
    locSumL part branch (r :: l) =
      (if r.part == part && r.branch == branch then r.quantity else 0) + locSumL part branch l := by
  simp only [locSumL, List.filter_cons]
  by_cases h : (r.part == part && r.branch == branch) = true
  · rw [if_pos h, if_pos h, List.map_cons, List.sum_cons]
  · rw [if_neg h, if_neg h, Nat.zero_add]

theorem findStock_eq_some_pair {db : DB} {part branch : Nat} {s : Stock}
    (h : findStock db part branch = some s) : s.part = part ∧ s.branch = branch := by
  have := List.find?_some h
  simpa using this

theorem findTransfer_eq_some_fields {db : DB} {tid : Nat} {t : TransferRequest}
    (h : findTransfer db tid = some t) : t.tid = tid := by
  have := List.find?_some h
  simpa using this

theorem findTransfer_mem {db : DB} {tid : Nat} {t : TransferRequest}
    (h : findTransfer db tid = some t) : t ∈ db.transfers :=
  List.mem_of_find?_eq_some h

/-! ### `sync_stock_total_from_locations` lemmas -/

theorem sync_stock_locations (db : DB) (part branch : Nat) :
    (sync_stock_total_from_locations db part branch).stock_locations = db.stock_locations := by
  unfold sync_stock_total_from_locations
  cases h : findStock db part branch <;> simp <;> split <;> rfl

theorem sync_movements (db : DB) (part branch : Nat) :
    (sync_stock_total_from_locations db part branch).movements = db.movements := by
  unfold sync_stock_total_from_locations
  cases h : findStock db part branch <;> simp <;> split <;> rfl

theorem sync_transfers (db : DB) (part branch : Nat) :
    (sync_stock_total_from_locations db part branch).transfers = db.transfers := by
  unfold sync_stock_total_from_locations
  cases h : findStock db part branch <;> simp <;> split <;> rfl

theorem sync_locations (db : DB) (part branch : Nat) :
    (sync_stock_total_from_locations db part branch).locations = db.locations := by
  unfold sync_stock_total_from_locations
  cases h : findStock db part branch <;> simp <;> split <;> rfl

theorem sync_nextId (db : DB) (part branch : Nat) :
    (sync_stock_total_from_locations db part branch).nextId = db.nextId := by
  unfold sync_stock_total_from_locations
  cases h : findStock db part branch <;> simp <;> split <;> rfl

/-- After `sync_stock_total_from_locations`, the pair's aggregate equals the
pair's location sum in the input state. -/
theorem aggValue_sync_self (db : DB) (part branch : Nat) :
    aggValue (sync_stock_total_from_locations db part branch) part branch =
      locSum db part branch := by
  unfold sync_stock_total_from_locations
  cases h : findStock db part branch with
  | none =>
      simp only []
      by_cases ht : 0 < locSum db part branch
      · rw [if_pos ht]
        unfold aggValue findStock
        simp only [List.find?_append]
        unfold findStock at h
        rw [h]
        simp
      · rw [if_neg ht]
        unfold aggValue
        rw [h]
        show 0 = locSum db part branch
        omega
  | some s =>
      simp only []
      by_cases hne : s.quantity ≠ locSum db part branch
      · rw [if_pos hne]
        unfold aggValue findStock
        have hself : (updateFirst (fun s => s.part == part && s.branch == branch)
            (fun s => { s with quantity := locSum db part branch }) db.stocks).find?
              (fun s => s.part == part && s.branch == branch) =
            (db.stocks.find? (fun s => s.part == part && s.branch == branch)).map
              (fun s => { s with quantity := locSum db part branch }) :=
          find?_updateFirst_self (fun a => rfl)
        simp only [hself]
        unfold findStock at h
        rw [h]
        rfl
      · rw [if_neg hne]
        unfold aggValue
        rw [h]
        simpa using hne

/-- `sync` leaves every other pair's aggregate row reading unchanged. -/
theorem findStock_sync_other (db : DB) (part branch p2 b2 : Nat)
    (hne : ¬(p2 = part ∧ b2 = branch)) :
    findStock (sync_stock_total_from_locations db part branch) p2 b2 =
      findStock db p2 b2 := by
  unfold sync_stock_total_from_locations
  cases h : findStock db part branch with
  | none =>
      simp only []
      by_cases ht : 0 < locSum db part branch
      · rw [if_pos ht]
        unfold findStock
        simp only [List.find?_append]
        have hsingle : (([{ part := part, branch := branch, quantity := locSum db part branch }] :
            List Stock).find? (fun s => s.part == p2 && s.branch == b2)) = none := by
          rw [List.find?_eq_none]
          intro x hx
          rw [List.mem_singleton] at hx
          subst hx
          simp only [Bool.and_eq_true, beq_iff_eq, not_and]
          intro hc1 hc2
          exact hne ⟨hc1.symm, hc2.symm⟩
        rw [hsingle]
        cases db.stocks.find? (fun s => s.part == p2 && s.branch == b2) <;> rfl
      · rw [if_neg ht]
  | some s =>
      simp only []
      by_cases hq : s.quantity ≠ locSum db part branch
      · rw [if_pos hq]
        unfold findStock
        exact find?_updateFirst_disjoint (by
          intro a hp
          simp only [Bool.and_eq_true, beq_iff_eq] at hp
          constructor <;>
          · simp only [Bool.and_eq_true, beq_iff_eq, Bool.eq_false_iff, ne_eq, not_and]
            intro hc1 hc2
            exact hne ⟨by omega, by omega⟩)
      · rw [if_neg hq]

theorem aggValue_sync_other (db : DB) (part branch p2 b2 : Nat)
    (hne : ¬(p2 = part ∧ b2 = branch)) :
    aggValue (sync_stock_total_from_locations db part branch) p2 b2 =
      aggValue db p2 b2 := by
  unfold aggValue
  rw [findStock_sync_other db part branch p2 b2 hne]

end Delta

namespace Delta

/-! ### locSum frame and delta lemmas -/

theorem locSumL_updateFirst_frame {p2 b2 : Nat} {q : StockLocation → Bool}
    {f : StockLocation → StockLocation}
    (hq : ∀ a, q a = true → ¬(a.part = p2 ∧ a.branch = b2))
    (hf : ∀ a, (f a).part = a.part ∧ (f a).branch = a.branch)
    (l : List StockLocation) :
    locSumL p2 b2 (updateFirst q f l) = locSumL p2 b2 l := by
  induction l with
  | nil => rfl
  | cons a t ih =>
      by_cases hp : q a
      · rw [show updateFirst q f (a :: t) = f a :: t by simp [updateFirst, hp]]
        rw [locSumL_cons, locSumL_cons]
        have ha := hq a hp
        have hfa := hf a
        have h1 : (a.part == p2 && a.branch == b2) = false := by
          simp only [Bool.and_eq_true, beq_iff_eq, Bool.eq_false_iff, ne_eq, not_and]
          intro hc1 hc2
          exact ha ⟨hc1, hc2⟩
        have h2 : ((f a).part == p2 && (f a).branch == b2) = false := by
          simp only [Bool.and_eq_true, beq_iff_eq, Bool.eq_false_iff, ne_eq, not_and]
          intro hc1 hc2
          exact ha ⟨hfa.1 ▸ hc1, hfa.2 ▸ hc2⟩
        rw [h1, h2]
        simp
      · rw [show updateFirst q f (a :: t) = a :: updateFirst q f t by simp [updateFirst, hp]]
        rw [locSumL_cons, locSumL_cons, ih]

theorem locSumL_updateFirst_found {p b : Nat} {q : StockLocation → Bool}
    {f : StockLocation → StockLocation} {l : List StockLocation} {x : StockLocation}
    (hfind : l.find? q = some x)
    (hx : x.part = p ∧ x.branch = b)
    (hfx : (f x).part = p ∧ (f x).branch = b) :
    locSumL p b (updateFirst q f l) + x.quantity = locSumL p b l + (f x).quantity := by
  obtain ⟨l₁, l₂, he, hnone, hupd⟩ := find?_decomp hfind f
  rw [hupd, he, locSumL_append, locSumL_append, locSumL_cons, locSumL_cons]
  have h1 : (x.part == p && x.branch == b) = true := by
    simp [hx.1, hx.2]
  have h2 : ((f x).part == p && (f x).branch == b) = true := by
    simp [hfx.1, hfx.2]
  rw [h1, h2]
  simp only [if_true]
  omega

theorem locSumL_eq_zero_of_noPair {p b : Nat} {l : List StockLocation}
    (h : ∀ r ∈ l, ¬(r.part = p ∧ r.branch = b)) : locSumL p b l = 0 := by
  induction l with
  | nil => rfl
  | cons a t ih =>
      rw [locSumL_cons]
      have ha : (a.part == p && a.branch == b) = false := by
        simp only [Bool.and_eq_true, beq_iff_eq, Bool.eq_false_iff, ne_eq, not_and]
        intro hc1 hc2
        exact h a (List.mem_cons_self a t) ⟨hc1, hc2⟩
      rw [ha]
      simpa using ih fun r hr => h r (List.mem_cons_of_mem a hr)

theorem locSum_eq_of_sl {db1 db2 : DB} (h : db1.stock_locations = db2.stock_locations)
    (p b : Nat) : locSum db1 p b = locSum db2 p b := by
  unfold locSum
  rw [h]

theorem findStock_eq_of_stocks {db1 db2 : DB} (h : db1.stocks = db2.stocks)
    (p b : Nat) : findStock db1 p b = findStock db2 p b := by
  unfold findStock
  rw [h]

theorem aggValue_eq_of_stocks {db1 db2 : DB} (h : db1.stocks = db2.stocks)
    (p b : Nat) : aggValue db1 p b = aggValue db2 p b := by
  unfold aggValue
  rw [findStock_eq_of_stocks h]

/-! ### `get_or_create_default_location` and seeding lemmas -/

theorem seedIfStock_none {db : DB} {part branch : Nat}
    (h : findStock db part branch = none) : seedIfStock db part branch = db := by
  unfold seedIfStock
  rw [h]

theorem seedIfStock_some {db : DB} {part branch : Nat} {s : Stock}
    (h : findStock db part branch = some s) :
    seedIfStock db part branch = ensure_stock_locations_seeded_from_branch_stock db s := by
  unfold seedIfStock
  rw [h]

theorem get_or_create_default_location_spec (db : DB) (branch : Nat) :
    (get_or_create_default_location db branch).1.branch = branch ∧
    (get_or_create_default_location db branch).1.code = DEFAULT_LOCATION_CODE ∧
    (get_or_create_default_location db branch).2.stock_locations = db.stock_locations ∧
    (get_or_create_default_location db branch).2.stocks = db.stocks ∧
    (get_or_create_default_location db branch).2.movements = db.movements ∧
    (get_or_create_default_location db branch).2.transfers = db.transfers ∧
    db.nextId ≤ (get_or_create_default_location db branch).2.nextId ∧
    (get_or_create_default_location db branch).1 ∈
      (get_or_create_default_location db branch).2.locations ∧
    (∀ l2 ∈ db.locations, l2 ∈ (get_or_create_default_location db branch).2.locations) := by
  unfold get_or_create_default_location
  cases h : db.locations.find? (fun l => l.branch == branch && l.code == DEFAULT_LOCATION_CODE) with
  | some l =>
      have hl := List.find?_some h
      simp only [Bool.and_eq_true, beq_iff_eq] at hl
      exact ⟨hl.1, hl.2, rfl, rfl, rfl, rfl, le_refl _, List.mem_of_find?_eq_some h,
        fun x hx => hx⟩
  | none =>
      refine ⟨rfl, rfl, rfl, rfl, rfl, rfl, ?_, ?_, ?_⟩
      · show db.nextId ≤ db.nextId + 1
        omega
      · show _ ∈ db.locations ++ _
        simp
      · intro x hx
        show x ∈ db.locations ++ _
        simp [hx]

/-- `seedIfStock` either does nothing (and then the pair's aggregate is zero or
the pair already has a location row), or appends exactly one fresh row carrying
the whole aggregate onto a pair that previously had no rows. -/
theorem seedIfStock_cases (db : DB) (part branch : Nat) :
    (seedIfStock db part branch = db ∧
      (aggValue db part branch = 0 ∨
        ∃ r ∈ db.stock_locations, r.part = part ∧ r.branch = branch)) ∨
    ∃ row : StockLocation,
      row.part = part ∧ row.branch = branch ∧
      (seedIfStock db part branch).stock_locations = db.stock_locations ++ [row] ∧
      (seedIfStock db part branch).stocks = db.stocks ∧
      (seedIfStock db part branch).movements = db.movements ∧
      (seedIfStock db part branch).transfers = db.transfers ∧
      db.nextId ≤ row.rowId ∧ row.rowId < (seedIfStock db part branch).nextId ∧
      db.nextId ≤ (seedIfStock db part branch).nextId ∧
      row.quantity = aggValue db part branch ∧ 0 < row.quantity ∧
      (∀ r ∈ db.stock_locations, ¬(r.part = part ∧ r.branch = branch)) ∧
      (∀ l2 ∈ db.locations, l2 ∈ (seedIfStock db part branch).locations) := by
  cases h : findStock db part branch with
  | none =>
      left
      refine ⟨seedIfStock_none h, Or.inl ?_⟩
      unfold aggValue
      rw [h]
  | some s =>
      obtain ⟨hsp, hsb⟩ := findStock_eq_some_pair h
      have hagg : aggValue db part branch = s.quantity := by
        unfold aggValue
        rw [h]
      rw [seedIfStock_some h]
      unfold ensure_stock_locations_seeded_from_branch_stock
      by_cases hq : s.quantity = 0
      · left
        rw [if_pos hq]
        exact ⟨rfl, Or.inl (by omega)⟩
      · rw [if_neg hq]
        by_cases hany : (db.stock_locations.any
            (fun r => r.part == s.part && r.branch == s.branch)) = true
        · left
          rw [if_pos hany]
          refine ⟨rfl, Or.inr ?_⟩
          obtain ⟨r, hr, hpr⟩ := List.any_eq_true.mp hany
          simp only [Bool.and_eq_true, beq_iff_eq] at hpr
          exact ⟨r, hr, by omega, by omega⟩
        · right
          rw [if_neg hany]
          obtain ⟨hgb, hgc, hgsl, hgst, hgm, hgt, hgn, hgmem, hgpres⟩ :=
            get_or_create_default_location_spec db s.branch
          refine ⟨{ rowId := (get_or_create_default_location db s.branch).2.nextId,
                    part := s.part, branch := s.branch,
                    location := (get_or_create_default_location db s.branch).1.locId,
                    quantity := s.quantity },
            hsp, hsb, ?_, hgst, hgm, hgt, hgn, Nat.lt_succ_self _,
            le_trans hgn (Nat.le_succ _), hagg.symm, Nat.pos_of_ne_zero hq, ?_, ?_⟩
          · exact congrArg
              (fun z => z ++ [({ rowId := (get_or_create_default_location db s.branch).2.nextId,
                                 part := s.part, branch := s.branch,
                                 location := (get_or_create_default_location db s.branch).1.locId,
                                 quantity := s.quantity } : StockLocation)]) hgsl
          · intro r hr hcon
            apply hany
            apply List.any_eq_true.mpr
            exact ⟨r, hr, by simp [hcon.1, hcon.2, hsp, hsb]⟩
          · intro l2 hl2
            exact hgpres l2 hl2

end Delta

namespace Delta

/-! ### Drain plan lemmas -/

theorem drainPlan_mem {rows : List StockLocation} {remaining : Nat}
    {x : StockLocation × Nat} (hx : x ∈ drainPlan rows remaining) :
    x.1 ∈ rows ∧ x.2 ≤ x.1.quantity := by
  induction rows generalizing remaining with
  | nil => simp [drainPlan] at hx
  | cons r rest ih =>
      unfold drainPlan at hx
      by_cases hz : remaining = 0
      · rw [if_pos hz] at hx
        simp at hx
      · rw [if_neg hz] at hx
        rcases List.mem_cons.mp hx with rfl | hx
        · exact ⟨List.mem_cons_self _ _, by simp⟩
        · obtain ⟨h1, h2⟩ := ih hx
          exact ⟨List.mem_cons_of_mem _ h1, h2⟩

theorem drainPlan_fst_sublist (rows : List StockLocation) (remaining : Nat) :
    ((drainPlan rows remaining).map Prod.fst).Sublist rows := by
  induction rows generalizing remaining with
  | nil => simp [drainPlan]
  | cons r rest ih =>
      unfold drainPlan
      by_cases hz : remaining = 0
      · rw [if_pos hz]
        simp
      · rw [if_neg hz]
        simpa using List.Sublist.cons₂ r (ih _)

theorem drainPlan_sum (rows : List StockLocation) (remaining : Nat) :
    ((drainPlan rows remaining).map (fun x => x.2)).sum =
      min remaining ((rows.map (fun r => r.quantity)).sum) := by
  induction rows generalizing remaining with
  | nil => simp [drainPlan]
  | cons r rest ih =>
      unfold drainPlan
      by_cases hz : remaining = 0
      · rw [if_pos hz]
        simp [hz]
      · rw [if_neg hz]
        simp only [List.map_cons, List.sum_cons, ih]
        omega

theorem locSumL_updateFirst_found_frame {p2 b2 : Nat} {q : StockLocation → Bool}
    {f : StockLocation → StockLocation} {l : List StockLocation} {x : StockLocation}
    (hfind : l.find? q = some x)
    (hne_x : ¬(x.part = p2 ∧ x.branch = b2))
    (hne_fx : ¬((f x).part = p2 ∧ (f x).branch = b2)) :
    locSumL p2 b2 (updateFirst q f l) = locSumL p2 b2 l := by
  obtain ⟨l₁, l₂, he, hnone, hupd⟩ := find?_decomp hfind f
  rw [hupd, he, locSumL_append, locSumL_append, locSumL_cons, locSumL_cons]
  have h1 : (x.part == p2 && x.branch == b2) = false := by
    simp only [Bool.and_eq_true, beq_iff_eq, Bool.eq_false_iff, ne_eq, not_and]
    intro hc1 hc2
    exact hne_x ⟨hc1, hc2⟩
  have h2 : ((f x).part == p2 && (f x).branch == b2) = false := by
    simp only [Bool.and_eq_true, beq_iff_eq, Bool.eq_false_iff, ne_eq, not_and]
    intro hc1 hc2
    exact hne_fx ⟨hc1, hc2⟩
  rw [h1, h2]
  simp

/-- Accounting for the drain loop's writes: row ids are untouched, the drained
pair's sum drops by exactly the total taken, and every other pair keeps its
sum. -/
theorem applyDrain_master {p b : Nat} :
    ∀ (plan : List (StockLocation × Nat)) (l : List StockLocation),
      (l.map (fun r => r.rowId)).Nodup →
      (∀ x ∈ plan, x.1 ∈ l ∧ x.2 ≤ x.1.quantity ∧ x.1.part = p ∧ x.1.branch = b) →
      ((plan.map (fun x => x.1.rowId)).Nodup) →
      ((applyDrain plan l).map (fun r => r.rowId) = l.map (fun r => r.rowId)) ∧
      (locSumL p b (applyDrain plan l) + ((plan.map (fun x => x.2)).sum) = locSumL p b l) ∧
      (∀ p2 b2, ¬(p2 = p ∧ b2 = b) → locSumL p2 b2 (applyDrain plan l) = locSumL p2 b2 l) := by
  intro plan
  induction plan with
  | nil =>
      intro l hN hmem hplanN
      exact ⟨rfl, by simp [applyDrain], fun p2 b2 h => rfl⟩
  | cons x ps ih =>
      intro l hN hmem hplanN
      have hx := hmem x (List.mem_cons_self x ps)
      have hfind : l.find? (fun r => r.rowId == x.1.rowId) = some x.1 :=
        @find?_key_of_nodup _ (fun r => r.rowId) _ _ hN hx.1
      have happ : applyDrain (x :: ps) l =
          applyDrain ps (updateFirst (fun r => r.rowId == x.1.rowId)
            (fun r => { r with quantity := r.quantity - x.2 }) l) := rfl
      set l2 := updateFirst (fun r => r.rowId == x.1.rowId)
        (fun r => { r with quantity := r.quantity - x.2 }) l with hl2
      have hids : l2.map (fun r => r.rowId) = l.map (fun r => r.rowId) :=
        map_updateFirst (fun a => rfl)
      have hN2 : (l2.map (fun r => r.rowId)).Nodup := by rw [hids]; exact hN
      simp only [List.map_cons, List.nodup_cons] at hplanN
      have hmem2 : ∀ y ∈ ps, y.1 ∈ l2 ∧ y.2 ≤ y.1.quantity ∧ y.1.part = p ∧ y.1.branch = b := by
        intro y hy
        obtain ⟨hy1, hy2, hy3, hy4⟩ := hmem y (List.mem_cons_of_mem x hy)
        refine ⟨?_, hy2, hy3, hy4⟩
        apply mem_updateFirst_of_not_pred hy1
        have : y.1.rowId ≠ x.1.rowId := by
          intro he
          exact hplanN.1 (he ▸ List.mem_map_of_mem (fun z => z.1.rowId) hy)
        simpa using this
      obtain ⟨ih1, ih2, ih3⟩ := ih l2 hN2 hmem2 hplanN.2
      have hsum : locSumL p b l2 + x.2 = locSumL p b l := by
        have := @locSumL_updateFirst_found p b _
          (fun r => { r with quantity := r.quantity - x.2 }) _ _ hfind
          ⟨hx.2.2.1, hx.2.2.2⟩ ⟨hx.2.2.1, hx.2.2.2⟩
        have hle := hx.2.1
        rw [← hl2] at this
        simp only [] at this
        omega
      refine ⟨?_, ?_, ?_⟩
      · rw [happ, ih1, hids]
      · rw [happ]
        simp only [List.map_cons, List.sum_cons]
        omega
      · intro p2 b2 hne
        rw [happ, ih3 p2 b2 hne]
        exact locSumL_updateFirst_found_frame hfind
          (by
            intro hc
            exact hne ⟨hc.1.symm.trans hx.2.2.1, hc.2.symm.trans hx.2.2.2⟩)
          (by
            intro hc
            exact hne ⟨hc.1.symm.trans hx.2.2.1, hc.2.symm.trans hx.2.2.2⟩)

end Delta

namespace Delta

/-! ### Drain ordering lemmas -/

theorem drainLE_total (db : DB) : ∀ a b, drainLE db a b ∨ drainLE db b a := by
  intro a b
  unfold drainLE
  rcases Nat.lt_trichotomy a.quantity b.quantity with h | h | h
  · exact Or.inr (Or.inl h)
  · rcases lt_trichotomy (codeOf db a.location) (codeOf db b.location) with hc | hc | hc
    · exact Or.inl (Or.inr ⟨h, Or.inl hc⟩)
    · rcases Nat.le_total a.rowId b.rowId with hr | hr
      · exact Or.inl (Or.inr ⟨h, Or.inr ⟨hc, hr⟩⟩)
      · exact Or.inr (Or.inr ⟨h.symm, Or.inr ⟨hc.symm, hr⟩⟩)
    · exact Or.inr (Or.inr ⟨h.symm, Or.inl hc⟩)
  · exact Or.inl (Or.inl h)

theorem drainLE_trans (db : DB) :
    ∀ a b c, drainLE db a b → drainLE db b c → drainLE db a c := by
  intro a b c hab hbc
  unfold drainLE at *
  rcases hab with h1 | ⟨hq1, h1⟩
  · rcases hbc with h2 | ⟨hq2, h2⟩
    · exact Or.inl (h2.trans h1)
    · exact Or.inl (hq2 ▸ h1)
  · rcases hbc with h2 | ⟨hq2, h2⟩
    · exact Or.inl (h2.trans_eq hq1.symm)
    · refine Or.inr ⟨hq1.trans hq2, ?_⟩
      rcases h1 with hc1 | ⟨hc1, hr1⟩
      · rcases h2 with hc2 | ⟨hc2, hr2⟩
        · exact Or.inl (hc1.trans hc2)
        · exact Or.inl (hc2 ▸ hc1)
      · rcases h2 with hc2 | ⟨hc2, hr2⟩
        · exact Or.inl (hc1 ▸ hc2)
        · exact Or.inr ⟨hc1.trans hc2, hr1.trans hr2⟩

/-- The greedy drain walks a list sorted by the claimed key. -/
theorem sorted_drainRows (db : DB) (part branch : Nat) :
    List.Sorted (drainLE db) (drainRows db part branch) := by
  haveI : IsTotal StockLocation (drainLE db) := ⟨drainLE_total db⟩
  haveI : IsTrans StockLocation (drainLE db) := ⟨drainLE_trans db⟩
  exact List.sorted_insertionSort (drainLE db) (positiveRows db part branch)

/-- The drained list is a permutation of the pair's positive-quantity rows. -/
theorem drainRows_perm (db : DB) (part branch : Nat) :
    (drainRows db part branch).Perm (positiveRows db part branch) :=
  List.perm_insertionSort (drainLE db) (positiveRows db part branch)

theorem idSorted_perm (db : DB) (part branch : Nat) (locId : Nat) :
    (List.insertionSort idLE
      ((positiveRows db part branch).filter (fun r => r.location == locId))).Perm
      ((positiveRows db part branch).filter (fun r => r.location == locId)) :=
  List.perm_insertionSort idLE _

/-! ### Well-formedness lemmas -/

theorem WF_seedIfStock {db : DB} (part branch : Nat) (h : WF db) :
    WF (seedIfStock db part branch) := by
  rcases seedIfStock_cases db part branch with ⟨heq, _⟩ | ⟨row, _, _, hsl, _, _, _, hn1, hn2, hn3, _⟩
  · rw [heq]; exact h
  · constructor
    · rw [hsl, List.map_append]
      rw [List.nodup_append]
      refine ⟨h.1, by simp, ?_⟩
      intro a ha
      simp only [List.map_cons, List.map_nil, List.mem_cons, List.not_mem_nil, or_false]
      intro he
      obtain ⟨r, hr, hre⟩ := List.mem_map.mp ha
      have := h.2 r hr
      omega
    · intro r hr
      rw [hsl] at hr
      rcases List.mem_append.mp hr with hr | hr
      · have := h.2 r hr
        omega
      · rw [List.mem_singleton] at hr
        subst hr
        exact hn2

theorem positiveRows_mem {db : DB} {part branch : Nat} {r : StockLocation}
    (h : r ∈ positiveRows db part branch) :
    r ∈ db.stock_locations ∧ r.part = part ∧ r.branch = branch ∧ 0 < r.quantity := by
  unfold positiveRows at h
  obtain ⟨h1, h2⟩ := List.mem_filter.mp h
  simp only [Bool.and_eq_true, beq_iff_eq, decide_eq_true_eq] at h2
  exact ⟨h1, h2.1.1, h2.1.2, h2.2⟩

theorem positiveRows_sum (db : DB) (part branch : Nat) :
    ((positiveRows db part branch).map (fun r => r.quantity)).sum =
      locSum db part branch := by
  unfold positiveRows locSum
  induction db.stock_locations with
  | nil => rfl
  | cons a t ih =>
      rw [locSumL_cons, List.filter_cons]
      by_cases hpos : (a.part == part && a.branch == branch && decide (0 < a.quantity)) = true
      · rw [if_pos hpos]
        simp only [List.map_cons, List.sum_cons, ih]
        simp only [Bool.and_eq_true, beq_iff_eq, decide_eq_true_eq] at hpos
        rw [if_pos (by simp [hpos.1.1, hpos.1.2])]
      · rw [if_neg hpos, ih]
        by_cases hpair : (a.part == part && a.branch == branch) = true
        · have hq : a.quantity = 0 := by
            by_contra hq
            apply hpos
            simp only [Bool.and_eq_true, beq_iff_eq, decide_eq_true_eq] at hpair ⊢
            exact ⟨⟨hpair.1, hpair.2⟩, Nat.pos_of_ne_zero hq⟩
          rw [if_pos hpair, hq]
          omega
        · rw [if_neg hpair]
          omega

theorem positiveRows_rowIds_nodup {db : DB} (part branch : Nat) (h : WF db) :
    ((positiveRows db part branch).map (fun r => r.rowId)).Nodup := by
  have hsub : (positiveRows db part branch).Sublist db.stock_locations :=
    List.filter_sublist _
  have hsub2 : ((positiveRows db part branch).map (fun r => r.rowId)).Sublist
      (db.stock_locations.map (fun r => r.rowId)) := hsub.map _
  exact List.Nodup.sublist hsub2 h.1

theorem drainRows_rowIds_nodup {db : DB} (part branch : Nat) (h : WF db) :
    ((drainRows db part branch).map (fun r => r.rowId)).Nodup := by
  have hp : ((drainRows db part branch).map (fun r => r.rowId)).Perm
      ((positiveRows db part branch).map (fun r => r.rowId)) :=
    (drainRows_perm db part branch).map _
  exact hp.nodup_iff.mpr (positiveRows_rowIds_nodup part branch h)

end Delta

namespace Delta

/-! ### Seeding component lemmas -/

theorem seed_stocks (db : DB) (part branch : Nat) :
    (seedIfStock db part branch).stocks = db.stocks := by
  rcases seedIfStock_cases db part branch with ⟨heq, _⟩ | ⟨row, h⟩
  · rw [heq]
  · exact h.2.2.2.1

theorem seed_movements (db : DB) (part branch : Nat) :
    (seedIfStock db part branch).movements = db.movements := by
  rcases seedIfStock_cases db part branch with ⟨heq, _⟩ | ⟨row, h⟩
  · rw [heq]
  · exact h.2.2.2.2.1

theorem seed_transfers (db : DB) (part branch : Nat) :
    (seedIfStock db part branch).transfers = db.transfers := by
  rcases seedIfStock_cases db part branch with ⟨heq, _⟩ | ⟨row, h⟩
  · rw [heq]
  · exact h.2.2.2.2.2.1

theorem findStock_seed (db : DB) (part branch p2 b2 : Nat) :
    findStock (seedIfStock db part branch) p2 b2 = findStock db p2 b2 :=
  findStock_eq_of_stocks (seed_stocks db part branch) p2 b2

theorem aggValue_seed (db : DB) (part branch p2 b2 : Nat) :
    aggValue (seedIfStock db part branch) p2 b2 = aggValue db p2 b2 :=
  aggValue_eq_of_stocks (seed_stocks db part branch) p2 b2

theorem locSum_seed_frame (db : DB) (part branch p2 b2 : Nat)
    (hne : ¬(p2 = part ∧ b2 = branch)) :
    locSum (seedIfStock db part branch) p2 b2 = locSum db p2 b2 := by
  rcases seedIfStock_cases db part branch with ⟨heq, _⟩ | ⟨row, hp, hb, hsl, h⟩
  · rw [heq]
  · unfold locSum
    rw [hsl, locSumL_append, locSumL_cons]
    have : (row.part == p2 && row.branch == b2) = false := by
      simp only [Bool.and_eq_true, beq_iff_eq, Bool.eq_false_iff, ne_eq, not_and]
      intro hc1 hc2
      exact hne ⟨hc1 ▸ hp.symm ▸ rfl, hc2 ▸ hb.symm ▸ rfl⟩
    rw [this]
    simp [locSumL]

/-- When the pair is in sync or entirely unseeded, the post-seeding location
sum equals the pair's aggregate reading. -/
theorem locSum_seed_of_sync (db : DB) (part branch : Nat)
    (h : pairInSync db part branch ∨ noPairRows db part branch) :
    locSum (seedIfStock db part branch) part branch = aggValue db part branch := by
  rcases seedIfStock_cases db part branch with ⟨heq, hreason⟩ |
    ⟨row, hp, hb, hsl, hst, hmv, htr, hn1, hn2, hn3, hq, hqpos, hnp, hlocs⟩
  · rw [heq]
    rcases h with h | h
    · exact h.symm
    · have hz : locSum db part branch = 0 := locSumL_eq_zero_of_noPair h
      rcases hreason with h0 | ⟨r, hr, hrp⟩
      · omega
      · exact absurd hrp (h r hr)
  · 
    unfold locSum
    rw [hsl, locSumL_append, locSumL_cons]
    have hz : locSumL part branch db.stock_locations = 0 := locSumL_eq_zero_of_noPair hnp
    have hcond : (row.part == part && row.branch == branch) = true := by simp [hp, hb]
    rw [hcond]
    have hnil : locSumL part branch ([] : List StockLocation) = 0 := rfl
    simp only [if_true]
    rw [hz, hnil, hq]
    omega

end Delta

namespace Delta

/-! ### rowsOf lemmas -/

theorem positiveRowsLoc_sum (db : DB) (part branch locId : Nat) :
    (((positiveRows db part branch).filter (fun r => r.location == locId)).map
      (fun r => r.quantity)).sum = locQtySum db part branch locId := by
  unfold positiveRows locQtySum
  induction db.stock_locations with
  | nil => rfl
  | cons a t ih =>
      rw [List.filter_cons, List.filter_cons]
      by_cases hpos : (a.part == part && a.branch == branch && decide (0 < a.quantity)) = true
      · rw [if_pos hpos, List.filter_cons]
        simp only [Bool.and_eq_true, beq_iff_eq, decide_eq_true_eq] at hpos
        by_cases hloc : (a.location == locId) = true
        · rw [if_pos hloc, if_pos (by simp [hpos.1.1, hpos.1.2, hloc])]
          simp only [List.map_cons, List.sum_cons, ih]
        · rw [if_neg hloc, if_neg (by
            simp only [Bool.and_eq_true, beq_iff_eq, not_and]
            intro h1 h2
            exact (by simpa using hloc : ¬a.location = locId) h2)]
          exact ih
      · rw [if_neg hpos]
        by_cases hall : (a.part == part && a.branch == branch && a.location == locId) = true
        · have hqz : a.quantity = 0 := by
            by_contra hqq
            apply hpos
            simp only [Bool.and_eq_true, beq_iff_eq, decide_eq_true_eq] at hall ⊢
            exact ⟨hall.1, Nat.pos_of_ne_zero hqq⟩
          rw [if_pos hall]
          simp only [List.map_cons, List.sum_cons, ih, hqz]
          omega
        · rw [if_neg hall]
          exact ih

theorem rowsOf_sum (db1 : DB) (part branch : Nat) (floc : Option Location) :
    ((rowsOf db1 part branch floc).map (fun r => r.quantity)).sum =
      removableOf db1 part branch floc := by
  unfold rowsOf removableOf
  cases floc with
  | none =>
      have hp : ((drainRows db1 part branch).map (fun r => r.quantity)).Perm
          ((positiveRows db1 part branch).map (fun r => r.quantity)) :=
        (drainRows_perm db1 part branch).map _
      rw [hp.sum_eq, positiveRows_sum]
  | some fl =>
      have hp := (idSorted_perm db1 part branch fl.locId).map (fun r => r.quantity)
      rw [hp.sum_eq, positiveRowsLoc_sum]

theorem rowsOf_mem {db1 : DB} {part branch : Nat} {floc : Option Location}
    {r : StockLocation} (h : r ∈ rowsOf db1 part branch floc) :
    r ∈ db1.stock_locations ∧ r.part = part ∧ r.branch = branch ∧ 0 < r.quantity := by
  unfold rowsOf at h
  cases floc with
  | none => exact positiveRows_mem ((drainRows_perm db1 part branch).mem_iff.mp h)
  | some fl =>
      have h2 := (idSorted_perm db1 part branch fl.locId).mem_iff.mp h
      exact positiveRows_mem (List.mem_of_mem_filter h2)

theorem rowsOf_rowIds_nodup {db1 : DB} (part branch : Nat) (floc : Option Location)
    (h : WF db1) : ((rowsOf db1 part branch floc).map (fun r => r.rowId)).Nodup := by
  unfold rowsOf
  cases floc with
  | none => exact drainRows_rowIds_nodup part branch h
  | some fl =>
      have hperm := (idSorted_perm db1 part branch fl.locId).map (fun r => r.rowId)
      apply hperm.nodup_iff.mpr
      have hsub : (((positiveRows db1 part branch).filter
          (fun r => r.location == fl.locId)).map (fun r => r.rowId)).Sublist
          ((positiveRows db1 part branch).map (fun r => r.rowId)) :=
        (List.filter_sublist _).map _
      exact List.Nodup.sublist hsub (positiveRows_rowIds_nodup part branch h)

end Delta

namespace Delta

/-! ### remove_stock_from_locations master lemmas -/

theorem remove_core_eq (db : DB) (part branch : Nat) (quantity : Int) (reason : String)
    (actor : Option Nat) (floc : Option Location) (act : String)
    (hq : ¬ quantity ≤ 0)
    (hfl : floc.any (fun l => l.branch != branch) = false) :
    remove_stock_from_locations db part branch quantity reason actor floc act =
      (if ((drainPlan (rowsOf (seedIfStock db part branch) part branch floc)
            quantity.toNat).map (fun x => x.2)).sum < quantity.toNat then
        Except.error LedgerError.insufficientStock
      else
        Except.ok
          (sync_stock_total_from_locations
            { seedIfStock db part branch with
                stock_locations :=
                  applyDrain
                    (drainPlan (rowsOf (seedIfStock db part branch) part branch floc)
                      quantity.toNat)
                    (seedIfStock db part branch).stock_locations,
                movements := (seedIfStock db part branch).movements ++
                  drainMovements part branch act reason actor
                    (drainPlan (rowsOf (seedIfStock db part branch) part branch floc)
                      quantity.toNat) }
            part branch,
          drainMovements part branch act reason actor
            (drainPlan (rowsOf (seedIfStock db part branch) part branch floc)
              quantity.toNat))) := by
  unfold remove_stock_from_locations
  rw [if_neg hq, if_neg (by simp [hfl])]

theorem remove_spec (db : DB) (part branch : Nat) (quantity : Int) (reason : String)
    (actor : Option Nat) (floc : Option Location) (act : String)
    (hq : 0 < quantity)
    (hfl : floc.any (fun l => l.branch != branch) = false)
    (hWF : WF db) :
    (removableOf (seedIfStock db part branch) part branch floc < quantity.toNat →
      remove_stock_from_locations db part branch quantity reason actor floc act =
        .error .insufficientStock) ∧
    (quantity.toNat ≤ removableOf (seedIfStock db part branch) part branch floc →
      ∃ db2 movs,
        remove_stock_from_locations db part branch quantity reason actor floc act =
          .ok (db2, movs) ∧
        pairInSync db2 part branch ∧
        locSum db2 part branch + quantity.toNat =
          locSum (seedIfStock db part branch) part branch ∧
        aggValue db2 part branch + quantity.toNat =
          locSum (seedIfStock db part branch) part branch ∧
        (∀ p2 b2, ¬(p2 = part ∧ b2 = branch) →
          aggValue db2 p2 b2 = aggValue db p2 b2 ∧ locSum db2 p2 b2 = locSum db p2 b2) ∧
        db2.transfers = db.transfers ∧
        db2.movements = db.movements ++ movs ∧
        (movs.map (fun m => m.qty)).sum = quantity.toNat ∧
        (∀ m ∈ movs, m.part = part ∧ m.branch = branch ∧ m.action = act ∧
          m.to_location = none ∧ m.actor = actor)) := by
  have hcore := remove_core_eq db part branch quantity reason actor floc act
    (not_le.mpr hq) hfl
  have hWF1 : WF (seedIfStock db part branch) := WF_seedIfStock part branch hWF
  have hsum : ((drainPlan (rowsOf (seedIfStock db part branch) part branch floc)
      quantity.toNat).map (fun x => x.2)).sum =
      min quantity.toNat
        (((rowsOf (seedIfStock db part branch) part branch floc).map
          (fun r => r.quantity)).sum) :=
    drainPlan_sum _ _
  have hrs := rowsOf_sum (seedIfStock db part branch) part branch floc
  constructor
  · intro hlt
    rw [hcore, if_pos (by rw [hsum, hrs]; omega)]
  · intro hge
    have hcond : ¬ (((drainPlan (rowsOf (seedIfStock db part branch) part branch floc)
        quantity.toNat).map (fun x => x.2)).sum < quantity.toNat) := by
      rw [hsum, hrs]
      omega
    have htaken : ((drainPlan (rowsOf (seedIfStock db part branch) part branch floc)
        quantity.toNat).map (fun x => x.2)).sum = quantity.toNat := by
      rw [hsum, hrs]
      omega
    rw [hcore, if_neg hcond]
    have hmemplan : ∀ x ∈ drainPlan (rowsOf (seedIfStock db part branch) part branch floc)
        quantity.toNat,
        x.1 ∈ (seedIfStock db part branch).stock_locations ∧ x.2 ≤ x.1.quantity ∧
          x.1.part = part ∧ x.1.branch = branch := by
      intro x hx
      obtain ⟨h1, h2⟩ := drainPlan_mem hx
      obtain ⟨m1, m2, m3, _⟩ := rowsOf_mem h1
      exact ⟨m1, h2, m2, m3⟩
    have hplanN : ((drainPlan (rowsOf (seedIfStock db part branch) part branch floc)
        quantity.toNat).map (fun x => x.1.rowId)).Nodup := by
      have hsub := (drainPlan_fst_sublist
        (rowsOf (seedIfStock db part branch) part branch floc) quantity.toNat).map
        (fun r => r.rowId)
      have hnd := List.Nodup.sublist hsub (rowsOf_rowIds_nodup part branch floc hWF1)
      simpa [List.map_map, Function.comp] using hnd
    obtain ⟨hids, hacc, hframe⟩ := @applyDrain_master part branch
      (drainPlan (rowsOf (seedIfStock db part branch) part branch floc) quantity.toNat)
      (seedIfStock db part branch).stock_locations hWF1.1 hmemplan hplanN
    refine ⟨_, _, rfl, ?_, ?_, ?_, ?_, ?_, ?_, ?_, ?_⟩
    · show aggValue _ part branch = locSum _ part branch
      rw [aggValue_sync_self]
      apply (locSum_eq_of_sl (sync_stock_locations _ part branch) part branch).symm.trans
      rfl
    · rw [locSum_eq_of_sl (sync_stock_locations _ part branch) part branch]
      show locSumL part branch
          (applyDrain (drainPlan (rowsOf (seedIfStock db part branch) part branch floc)
            quantity.toNat) (seedIfStock db part branch).stock_locations) +
          quantity.toNat =
        locSumL part branch (seedIfStock db part branch).stock_locations
      omega
    · rw [aggValue_sync_self]
      show locSumL part branch
          (applyDrain (drainPlan (rowsOf (seedIfStock db part branch) part branch floc)
            quantity.toNat) (seedIfStock db part branch).stock_locations) +
          quantity.toNat =
        locSumL part branch (seedIfStock db part branch).stock_locations
      omega
    · intro p2 b2 hne
      constructor
      · rw [aggValue_sync_other _ part branch p2 b2 hne]
        have h1 : aggValue { seedIfStock db part branch with
            stock_locations := applyDrain
              (drainPlan (rowsOf (seedIfStock db part branch) part branch floc)
                quantity.toNat) (seedIfStock db part branch).stock_locations,
            movements := (seedIfStock db part branch).movements ++
              drainMovements part branch act reason actor
                (drainPlan (rowsOf (seedIfStock db part branch) part branch floc)
                  quantity.toNat) } p2 b2 = aggValue (seedIfStock db part branch) p2 b2 :=
          aggValue_eq_of_stocks rfl p2 b2
        rw [h1, aggValue_seed]
      · rw [locSum_eq_of_sl (sync_stock_locations _ part branch) p2 b2]
        show locSumL p2 b2
            (applyDrain (drainPlan (rowsOf (seedIfStock db part branch) part branch floc)
              quantity.toNat) (seedIfStock db part branch).stock_locations) =
          locSum db p2 b2
        rw [hframe p2 b2 hne]
        exact locSum_seed_frame db part branch p2 b2 hne
    · rw [sync_transfers]
      show (seedIfStock db part branch).transfers = db.transfers
      exact seed_transfers db part branch
    · rw [sync_movements]
      show (seedIfStock db part branch).movements ++ _ = db.movements ++ _
      rw [seed_movements]
    · show ((drainMovements part branch act reason actor _).map (fun m => m.qty)).sum = _
      unfold drainMovements
      rw [List.map_map]
      exact htaken
    · intro m hm
      unfold drainMovements at hm
      obtain ⟨x, hx, hxm⟩ := List.mem_map.mp hm
      subst hxm
      exact ⟨rfl, rfl, rfl, rfl, rfl⟩

end Delta

namespace Delta

/-! ### addApply master lemma -/

theorem addApply_spec (db1 : DB) (part branch : Nat) (target : Location) (qty : Nat)
    (reason : String) (actor : Option Nat) (act : String) :
    pairInSync (addApply db1 part branch target qty reason actor act).1 part branch ∧
    locSum (addApply db1 part branch target qty reason actor act).1 part branch =
      locSum db1 part branch + qty ∧
    aggValue (addApply db1 part branch target qty reason actor act).1 part branch =
      locSum db1 part branch + qty ∧
    (∀ p2 b2, ¬(p2 = part ∧ b2 = branch) →
      aggValue (addApply db1 part branch target qty reason actor act).1 p2 b2 =
        aggValue db1 p2 b2 ∧
      locSum (addApply db1 part branch target qty reason actor act).1 p2 b2 =
        locSum db1 p2 b2) ∧
    (addApply db1 part branch target qty reason actor act).1.transfers = db1.transfers ∧
    (addApply db1 part branch target qty reason actor act).1.movements =
      db1.movements ++ [(addApply db1 part branch target qty reason actor act).2] ∧
    (addApply db1 part branch target qty reason actor act).1.locations = db1.locations ∧
    (addApply db1 part branch target qty reason actor act).2 =
      { part := part, branch := branch, qty := qty, action := act,
        from_location := none, to_location := some target.locId,
        reason := normalizeReason reason, actor := actor } := by
  unfold addApply
  by_cases hany : (db1.stock_locations.any
      (fun r => r.part == part && r.branch == branch && r.location == target.locId)) = true
  · rw [if_pos hany]
    simp only []
    obtain ⟨x0, hx0mem, hx0p⟩ := List.any_eq_true.mp hany
    cases hfind : db1.stock_locations.find?
        (fun r => r.part == part && r.branch == branch && r.location == target.locId) with
    | none =>
        rw [List.find?_eq_none] at hfind
        exact absurd hx0p (by simpa using hfind x0 hx0mem)
    | some x =>
        have hx := List.find?_some hfind
        simp only [Bool.and_eq_true, beq_iff_eq] at hx
        have hxp : x.part = part := hx.1.1
        have hxb : x.branch = branch := hx.1.2
        have hsum := @locSumL_updateFirst_found part branch _
          (fun r => { r with quantity := r.quantity + qty }) _ _ hfind
          ⟨hxp, hxb⟩ ⟨hxp, hxb⟩
        simp only [] at hsum
        refine ⟨?_, ?_, ?_, ?_, ?_, ?_, ?_, by trivial⟩
        · show aggValue _ part branch = locSum _ part branch
          rw [aggValue_sync_self, locSum_eq_of_sl (sync_stock_locations _ part branch) part branch]
        · rw [locSum_eq_of_sl (sync_stock_locations _ part branch) part branch]
          show locSumL part branch (updateFirst
            (fun r => r.part == part && r.branch == branch && r.location == target.locId)
            (fun r => { r with quantity := r.quantity + qty }) db1.stock_locations) =
            locSumL part branch db1.stock_locations + qty
          omega
        · rw [aggValue_sync_self]
          show locSumL part branch (updateFirst
            (fun r => r.part == part && r.branch == branch && r.location == target.locId)
            (fun r => { r with quantity := r.quantity + qty }) db1.stock_locations) =
            locSumL part branch db1.stock_locations + qty
          omega
        · intro p2 b2 hne
          constructor
          · rw [aggValue_sync_other _ part branch p2 b2 hne]
            exact aggValue_eq_of_stocks rfl p2 b2
          · rw [locSum_eq_of_sl (sync_stock_locations _ part branch) p2 b2]
            show locSumL p2 b2 (updateFirst
              (fun r => r.part == part && r.branch == branch && r.location == target.locId)
              (fun r => { r with quantity := r.quantity + qty }) db1.stock_locations) =
              locSumL p2 b2 db1.stock_locations
            exact locSumL_updateFirst_found_frame hfind
              (by intro hc; exact hne ⟨hc.1.symm.trans hxp, hc.2.symm.trans hxb⟩)
              (by intro hc; exact hne ⟨hc.1.symm.trans hxp, hc.2.symm.trans hxb⟩)
        · rw [sync_transfers]
        · rw [sync_movements]
        · rw [sync_locations]
  · rw [if_neg hany]
    simp only []
    have hfindL : db1.stock_locations.find?
        (fun r => r.part == part && r.branch == branch && r.location == target.locId) = none := by
      rw [List.find?_eq_none]
      intro x hx
      intro hc
      exact hany (List.any_eq_true.mpr ⟨x, hx, hc⟩)
    have hfind2 : (db1.stock_locations ++
        [({ rowId := db1.nextId, part := part, branch := branch, location := target.locId,
            quantity := 0 } : StockLocation)]).find?
        (fun r => r.part == part && r.branch == branch && r.location == target.locId) =
        some { rowId := db1.nextId, part := part, branch := branch,
               location := target.locId, quantity := 0 } := by
      rw [List.find?_append, hfindL]
      simp
    have hsum := @locSumL_updateFirst_found part branch _
      (fun r => { r with quantity := r.quantity + qty }) _ _ hfind2
      ⟨rfl, rfl⟩ ⟨rfl, rfl⟩
    simp only [] at hsum
    have happZ : locSumL part branch (db1.stock_locations ++
        [({ rowId := db1.nextId, part := part, branch := branch, location := target.locId,
            quantity := 0 } : StockLocation)]) = locSumL part branch db1.stock_locations := by
      rw [locSumL_append, locSumL_cons]
      simp [locSumL]
    refine ⟨?_, ?_, ?_, ?_, ?_, ?_, ?_, by trivial⟩
    · show aggValue _ part branch = locSum _ part branch
      rw [aggValue_sync_self, locSum_eq_of_sl (sync_stock_locations _ part branch) part branch]
    · rw [locSum_eq_of_sl (sync_stock_locations _ part branch) part branch]
      show locSumL part branch (updateFirst
        (fun r => r.part == part && r.branch == branch && r.location == target.locId)
        (fun r => { r with quantity := r.quantity + qty }) (db1.stock_locations ++
          [{ rowId := db1.nextId, part := part, branch := branch, location := target.locId,
             quantity := 0 }])) =
        locSumL part branch db1.stock_locations + qty
      omega
    · rw [aggValue_sync_self]
      show locSumL part branch (updateFirst
        (fun r => r.part == part && r.branch == branch && r.location == target.locId)
        (fun r => { r with quantity := r.quantity + qty }) (db1.stock_locations ++
          [{ rowId := db1.nextId, part := part, branch := branch, location := target.locId,
             quantity := 0 }])) =
        locSumL part branch db1.stock_locations + qty
      omega
    · intro p2 b2 hne
      constructor
      · rw [aggValue_sync_other _ part branch p2 b2 hne]
        exact aggValue_eq_of_stocks rfl p2 b2
      · rw [locSum_eq_of_sl (sync_stock_locations _ part branch) p2 b2]
        show locSumL p2 b2 (updateFirst
          (fun r => r.part == part && r.branch == branch && r.location == target.locId)
          (fun r => { r with quantity := r.quantity + qty }) (db1.stock_locations ++
            [{ rowId := db1.nextId, part := part, branch := branch, location := target.locId,
               quantity := 0 }])) =
          locSumL p2 b2 db1.stock_locations
        rw [locSumL_updateFirst_found_frame hfind2
          (by intro hc; exact hne ⟨hc.1.symm, hc.2.symm⟩)
          (by intro hc; exact hne ⟨hc.1.symm, hc.2.symm⟩)]
        rw [locSumL_append, locSumL_cons]
        have : (part == p2 && branch == b2) = false := by
          simp only [Bool.and_eq_true, beq_iff_eq, Bool.eq_false_iff, ne_eq, not_and]
          intro hc1 hc2
          exact hne ⟨hc1.symm, hc2.symm⟩
        rw [this]
        simp [locSumL]
    · rw [sync_transfers]
    · rw [sync_movements]
    · rw [sync_locations]

end Delta

namespace Delta

theorem seed_locations_pres (db : DB) (part branch : Nat) :
    ∀ l2 ∈ db.locations, l2 ∈ (seedIfStock db part branch).locations := by
  rcases seedIfStock_cases db part branch with ⟨heq, _⟩ |
    ⟨row, hp, hb, hsl, hst, hmv, htr, hn1, hn2, hn3, hqa, hqpos, hnp, hlocs⟩
  · rw [heq]
    exact fun l2 h => h
  · exact hlocs

theorem locSum_seed_of_sync_tr {X db : DB} (hsl : X.stock_locations = db.stock_locations)
    (hst : X.stocks = db.stocks) (part branch : Nat)
    (h : pairInSync db part branch ∨ noPairRows db part branch) :
    locSum (seedIfStock X part branch) part branch = aggValue db part branch := by
  have h2 : pairInSync X part branch ∨ noPairRows X part branch := by
    rcases h with h | h
    · left
      unfold pairInSync at *
      rw [aggValue_eq_of_stocks hst, locSum_eq_of_sl hsl]
      exact h
    · right
      unfold noPairRows at *
      rw [hsl]
      exact h
  rw [locSum_seed_of_sync X part branch h2, aggValue_eq_of_stocks hst]

/-- Success specification of `add_stock_to_location`: the only failure modes
are a non-positive quantity and a location from another branch; on success the
pair's aggregate grows by exactly the quantity (when the pair was in sync or
unseeded), no other pair changes, and one movement row into the target
location is appended. -/
theorem add_spec (db : DB) (part branch : Nat) (quantity : Int) (reason : String)
    (actor : Option Nat) (loc : Option Location) (act : String)
    (hq : 0 < quantity)
    (hloc : ∀ l, loc = some l → l.branch = branch) :
    ∃ db' mv,
      add_stock_to_location db part branch quantity reason actor loc act = .ok (db', mv) ∧
      pairInSync db' part branch ∧
      ((pairInSync db part branch ∨ noPairRows db part branch) →
        aggValue db' part branch = aggValue db part branch + quantity.toNat) ∧
      (∀ p2 b2, ¬(p2 = part ∧ b2 = branch) →
        aggValue db' p2 b2 = aggValue db p2 b2 ∧ locSum db' p2 b2 = locSum db p2 b2) ∧
      db'.transfers = db.transfers ∧
      (∃ target : Location,
        db'.movements = db.movements ++
          [{ part := part, branch := branch, qty := quantity.toNat, action := act,
             from_location := none, to_location := some target.locId,
             reason := normalizeReason reason, actor := actor }] ∧
        mv = ({ part := part, branch := branch, qty := quantity.toNat, action := act,
                from_location := none, to_location := some target.locId,
                reason := normalizeReason reason, actor := actor } : StockMovement) ∧
        target.branch = branch ∧
        (loc = none → target.code = DEFAULT_LOCATION_CODE ∧ target ∈ db'.locations) ∧
        (∀ l, loc = some l → target = l)) := by
  unfold add_stock_to_location
  rw [if_neg (not_le.mpr hq)]
  cases loc with
  | some l =>
      have hb := hloc l rfl
      simp only []
      rw [if_neg (show ¬ l.branch ≠ branch by simp [hb])]
      obtain ⟨hA1, hA2, hA3, hA4, hA5, hA6, hA7, hA8⟩ :=
        addApply_spec (seedIfStock db part branch) part branch l quantity.toNat reason actor act
      refine ⟨(addApply (seedIfStock db part branch) part branch l quantity.toNat
          reason actor act).1,
        (addApply (seedIfStock db part branch) part branch l quantity.toNat
          reason actor act).2, rfl, hA1, ?_, ?_, ?_, ⟨l, ?_, ?_, hb, ?_, ?_⟩⟩
      · intro hsync
        rw [hA3, locSum_seed_of_sync db part branch hsync]
      · intro p2 b2 hne
        obtain ⟨hagg, hls⟩ := hA4 p2 b2 hne
        refine ⟨?_, ?_⟩
        · rw [hagg, aggValue_seed]
        · rw [hls, locSum_seed_frame db part branch p2 b2 hne]
      · rw [hA5, seed_transfers]
      · rw [hA6, hA8, seed_movements]
      · exact hA8
      · intro hnone
        exact absurd hnone (by simp)
      · intro l2 hl2
        exact Option.some.inj hl2
  | none =>
      obtain ⟨hgb, hgc, hgsl, hgst, hgm, hgt, hgn, hgmem, hgpres⟩ :=
        get_or_create_default_location_spec db branch
      simp only []
      rw [if_neg (show ¬ (get_or_create_default_location db branch).1.branch ≠ branch by
        simp [hgb])]
      obtain ⟨hA1, hA2, hA3, hA4, hA5, hA6, hA7, hA8⟩ :=
        addApply_spec (seedIfStock (get_or_create_default_location db branch).2 part branch)
          part branch (get_or_create_default_location db branch).1 quantity.toNat reason actor act
      refine ⟨(addApply (seedIfStock (get_or_create_default_location db branch).2 part branch)
          part branch (get_or_create_default_location db branch).1 quantity.toNat
          reason actor act).1,
        (addApply (seedIfStock (get_or_create_default_location db branch).2 part branch)
          part branch (get_or_create_default_location db branch).1 quantity.toNat
          reason actor act).2, rfl, hA1, ?_, ?_, ?_,
        ⟨(get_or_create_default_location db branch).1, ?_, ?_, hgb, ?_, ?_⟩⟩
      · intro hsync
        rw [hA3, locSum_seed_of_sync_tr hgsl hgst part branch hsync]
      · intro p2 b2 hne
        obtain ⟨hagg, hls⟩ := hA4 p2 b2 hne
        refine ⟨?_, ?_⟩
        · rw [hagg, aggValue_seed, aggValue_eq_of_stocks hgst]
        · rw [hls, locSum_seed_frame _ part branch p2 b2 hne, locSum_eq_of_sl hgsl]
      · rw [hA5, seed_transfers, hgt]
      · rw [hA6, hA8, seed_movements, hgm]
      · exact hA8
      · intro hnone
        refine ⟨hgc, ?_⟩
        rw [hA7]
        exact seed_locations_pres _ part branch _ hgmem
      · intro l2 hl2
        exact absurd hl2 (by simp)

end Delta

namespace Delta

/-! ### moveApply lemmas -/

theorem moveApply_spec (db1 : DB) (part branch : Nat) (source : StockLocation)
    (from_location to_location : Location) (qty : Nat) (reason : String)
    (actor : Option Nat) (act : String) (hWF1 : WF db1)
    (hsrc_mem : source ∈ db1.stock_locations)
    (hsrc_pair : source.part = part ∧ source.branch = branch) :
    pairInSync
      (moveApply db1 part branch source from_location to_location qty reason actor act).1
      part branch ∧
    (∀ p2 b2, ¬(p2 = part ∧ b2 = branch) →
      aggValue
          (moveApply db1 part branch source from_location to_location qty reason actor act).1
          p2 b2 =
        aggValue db1 p2 b2 ∧
      locSum
          (moveApply db1 part branch source from_location to_location qty reason actor act).1
          p2 b2 =
        locSum db1 p2 b2) := by
  unfold moveApply
  by_cases hany : (db1.stock_locations.any
      (fun r => r.part == part && r.branch == branch && r.location == to_location.locId)) = true
  · rw [if_pos hany]
    simp only []
    have hfindS : db1.stock_locations.find? (fun r => r.rowId == source.rowId) = some source :=
      @find?_key_of_nodup _ (fun r => r.rowId) _ _ hWF1.1 hsrc_mem
    constructor
    · show aggValue _ part branch = locSum _ part branch
      rw [aggValue_sync_self, locSum_eq_of_sl (sync_stock_locations _ part branch) part branch]
    · intro p2 b2 hne
      constructor
      · rw [aggValue_sync_other _ part branch p2 b2 hne]
        exact aggValue_eq_of_stocks rfl p2 b2
      · rw [locSum_eq_of_sl (sync_stock_locations _ part branch) p2 b2]
        show locSumL p2 b2 (updateFirst
            (fun r => r.part == part && r.branch == branch && r.location == to_location.locId)
            (fun r => { r with quantity := r.quantity + qty })
            (updateFirst (fun r => r.rowId == source.rowId)
              (fun r => { r with quantity := r.quantity - qty }) db1.stock_locations)) =
          locSumL p2 b2 db1.stock_locations
        have hstep1 : locSumL p2 b2 (updateFirst (fun r => r.rowId == source.rowId)
            (fun r => { r with quantity := r.quantity - qty }) db1.stock_locations) =
            locSumL p2 b2 db1.stock_locations :=
          locSumL_updateFirst_found_frame hfindS
            (by intro hc; exact hne ⟨hc.1.symm.trans hsrc_pair.1, hc.2.symm.trans hsrc_pair.2⟩)
            (by intro hc; exact hne ⟨hc.1.symm.trans hsrc_pair.1, hc.2.symm.trans hsrc_pair.2⟩)
        cases hfindT : (updateFirst (fun r => r.rowId == source.rowId)
            (fun r => { r with quantity := r.quantity - qty }) db1.stock_locations).find?
            (fun r => r.part == part && r.branch == branch && r.location == to_location.locId) with
        | none => rw [updateFirst_of_find?_none hfindT, hstep1]
        | some y =>
            have hy := List.find?_some hfindT
            simp only [Bool.and_eq_true, beq_iff_eq] at hy
            rw [locSumL_updateFirst_found_frame hfindT
              (by intro hc; exact hne ⟨hc.1.symm.trans hy.1.1, hc.2.symm.trans hy.1.2⟩)
              (by intro hc; exact hne ⟨hc.1.symm.trans hy.1.1, hc.2.symm.trans hy.1.2⟩), hstep1]
  · rw [if_neg hany]
    simp only []
    have hN2 : ((db1.stock_locations ++
        [({ rowId := db1.nextId, part := part, branch := branch,
            location := to_location.locId, quantity := 0 } : StockLocation)]).map
        (fun r => r.rowId)).Nodup := by
      rw [List.map_append, List.nodup_append]
      refine ⟨hWF1.1, by simp, ?_⟩
      intro a ha
      simp only [List.map_cons, List.map_nil, List.mem_cons, List.not_mem_nil, or_false]
      intro he
      obtain ⟨r, hr, hre⟩ := List.mem_map.mp ha
      have := hWF1.2 r hr
      omega
    have hfindS : (db1.stock_locations ++
        [({ rowId := db1.nextId, part := part, branch := branch,
            location := to_location.locId, quantity := 0 } : StockLocation)]).find?
        (fun r => r.rowId == source.rowId) = some source :=
      @find?_key_of_nodup _ (fun r => r.rowId) _ _ hN2
        (List.mem_append.mpr (Or.inl hsrc_mem))
    constructor
    · show aggValue _ part branch = locSum _ part branch
      rw [aggValue_sync_self, locSum_eq_of_sl (sync_stock_locations _ part branch) part branch]
    · intro p2 b2 hne
      constructor
      · rw [aggValue_sync_other _ part branch p2 b2 hne]
        exact aggValue_eq_of_stocks rfl p2 b2
      · rw [locSum_eq_of_sl (sync_stock_locations _ part branch) p2 b2]
        show locSumL p2 b2 (updateFirst
            (fun r => r.part == part && r.branch == branch && r.location == to_location.locId)
            (fun r => { r with quantity := r.quantity + qty })
            (updateFirst (fun r => r.rowId == source.rowId)
              (fun r => { r with quantity := r.quantity - qty })
              (db1.stock_locations ++
                [{ rowId := db1.nextId, part := part, branch := branch,
                   location := to_location.locId, quantity := 0 }]))) =
          locSumL p2 b2 db1.stock_locations
        have happ : locSumL p2 b2 (db1.stock_locations ++
            [({ rowId := db1.nextId, part := part, branch := branch,
                location := to_location.locId, quantity := 0 } : StockLocation)]) =
            locSumL p2 b2 db1.stock_locations := by
          rw [locSumL_append, locSumL_cons]
          have : (part == p2 && branch == b2) = false := by
            simp only [Bool.and_eq_true, beq_iff_eq, Bool.eq_false_iff, ne_eq, not_and]
            intro hc1 hc2
            exact hne ⟨hc1.symm, hc2.symm⟩
          rw [this]
          simp [locSumL]
        have hstep1 : locSumL p2 b2 (updateFirst (fun r => r.rowId == source.rowId)
            (fun r => { r with quantity := r.quantity - qty })
            (db1.stock_locations ++
              [({ rowId := db1.nextId, part := part, branch := branch,
                  location := to_location.locId, quantity := 0 } : StockLocation)])) =
            locSumL p2 b2 db1.stock_locations := by
          rw [locSumL_updateFirst_found_frame hfindS
            (by intro hc; exact hne ⟨hc.1.symm.trans hsrc_pair.1, hc.2.symm.trans hsrc_pair.2⟩)
            (by intro hc; exact hne ⟨hc.1.symm.trans hsrc_pair.1, hc.2.symm.trans hsrc_pair.2⟩)]
          exact happ
        cases hfindT : (updateFirst (fun r => r.rowId == source.rowId)
            (fun r => { r with quantity := r.quantity - qty })
            (db1.stock_locations ++
              [({ rowId := db1.nextId, part := part, branch := branch,
                  location := to_location.locId, quantity := 0 } : StockLocation)])).find?
            (fun r => r.part == part && r.branch == branch && r.location == to_location.locId) with
        | none => rw [updateFirst_of_find?_none hfindT, hstep1]
        | some y =>
            have hy := List.find?_some hfindT
            simp only [Bool.and_eq_true, beq_iff_eq] at hy
            rw [locSumL_updateFirst_found_frame hfindT
              (by intro hc; exact hne ⟨hc.1.symm.trans hy.1.1, hc.2.symm.trans hy.1.2⟩)
              (by intro hc; exact hne ⟨hc.1.symm.trans hy.1.1, hc.2.symm.trans hy.1.2⟩), hstep1]

theorem move_preserves (db : DB) (part branch : Nat) (quantity : Int)
    (from_location to_location : Location) (reason : String) (actor : Option Nat)
    (act : String) (db' : DB) (mv : StockMovement) (hWF : WF db)
    (hok : move_stock_between_locations db part branch quantity from_location to_location
      reason actor act = .ok (db', mv)) :
    pairInSync db' part branch ∧
    (∀ p2 b2, ¬(p2 = part ∧ b2 = branch) →
      aggValue db' p2 b2 = aggValue db p2 b2 ∧ locSum db' p2 b2 = locSum db p2 b2) := by
  unfold move_stock_between_locations at hok
  split at hok
  · exact absurd hok (by simp)
  split at hok
  · exact absurd hok (by simp)
  split at hok
  · exact absurd hok (by simp)
  simp only [] at hok
  split at hok
  next hfind => exact absurd hok (by simp)
  next source hfind =>
    split at hok
    · exact absurd hok (by simp)
    · have hpair := List.find?_some hfind
      simp only [Bool.and_eq_true, beq_iff_eq] at hpair
      have hmem := List.mem_of_find?_eq_some hfind
      have hinj := Except.ok.inj hok
      have hdb : db' = (moveApply (seedIfStock db part branch) part branch source
          from_location to_location quantity.toNat reason actor act).1 := by
        rw [hinj]
      obtain ⟨hs1, hs2⟩ := moveApply_spec (seedIfStock db part branch) part branch source
        from_location to_location quantity.toNat reason actor act
        (WF_seedIfStock part branch hWF) hmem ⟨hpair.1.1, hpair.1.2⟩
      constructor
      · rw [hdb]
        exact hs1
      · intro p2 b2 hne
        obtain ⟨ha, hl⟩ := hs2 p2 b2 hne
        rw [hdb]
        exact ⟨ha.trans (aggValue_seed db part branch p2 b2),
          hl.trans (locSum_seed_frame db part branch p2 b2 hne)⟩

end Delta

namespace Delta

/-! ### Further seeding and success-shape lemmas -/

theorem seedIfStock_of_noop {db : DB} {part branch : Nat}
    (h : (∃ r ∈ db.stock_locations, r.part = part ∧ r.branch = branch) ∨
      aggValue db part branch = 0) :
    seedIfStock db part branch = db := by
  rcases seedIfStock_cases db part branch with ⟨heq, _⟩ |
    ⟨row, hp, hb, hsl, hst, hmv, htr, hn1, hn2, hn3, hqa, hqpos, hnp, hlocs⟩
  · exact heq
  · exfalso
    rcases h with ⟨r, hr, hrp⟩ | h0
    · exact hnp r hr hrp
    · rw [hqa] at hqpos
      omega

theorem seedIfStock_idem (db : DB) (part branch : Nat) :
    seedIfStock (seedIfStock db part branch) part branch = seedIfStock db part branch := by
  rcases seedIfStock_cases db part branch with ⟨heq, _⟩ |
    ⟨row, hp, hb, hsl, hst, hmv, htr, hn1, hn2, hn3, hqa, hqpos, hnp, hlocs⟩
  · rw [heq, heq]
  · apply seedIfStock_of_noop
    left
    exact ⟨row, by rw [hsl]; simp, hp, hb⟩

theorem add_ok_transfers {db : DB} {part branch : Nat} {quantity : Int} {reason : String}
    {actor : Option Nat} {loc : Option Location} {act : String} {da : DB} {mv : StockMovement}
    (hok : add_stock_to_location db part branch quantity reason actor loc act = .ok (da, mv)) :
    da.transfers = db.transfers := by
  unfold add_stock_to_location at hok
  split at hok
  · exact absurd hok (by simp)
  simp only [] at hok
  split at hok
  · exact absurd hok (by simp)
  have hinj := Except.ok.inj hok
  have hda : da = (addApply
      (seedIfStock (match loc with
        | some l => (l, db)
        | none => get_or_create_default_location db branch).2 part branch) part branch
      (match loc with
        | some l => (l, db)
        | none => get_or_create_default_location db branch).1 quantity.toNat
      reason actor act).1 := by
    rw [hinj]
  rw [hda]
  have h5 := (addApply_spec (seedIfStock (match loc with
      | some l => (l, db)
      | none => get_or_create_default_location db branch).2 part branch) part branch
      (match loc with
        | some l => (l, db)
        | none => get_or_create_default_location db branch).1 quantity.toNat
      reason actor act).2.2.2.2.1
  rw [h5, seed_transfers]
  cases loc with
  | some l => rfl
  | none => exact (get_or_create_default_location_spec db branch).2.2.2.2.2.1

theorem remove_ok_shape {db : DB} {part branch : Nat} {quantity : Int} {reason : String}
    {actor : Option Nat} {floc : Option Location} {act : String} {db2 : DB}
    {movs : List StockMovement}
    (hok : remove_stock_from_locations db part branch quantity reason actor floc act =
      .ok (db2, movs)) :
    0 < quantity ∧ floc.any (fun l => l.branch != branch) = false ∧
    quantity.toNat ≤ removableOf (seedIfStock db part branch) part branch floc := by
  unfold remove_stock_from_locations at hok
  split at hok
  next h1 => exact absurd hok (by simp)
  next h1 =>
    split at hok
    next h2 => exact absurd hok (by simp)
    next h2 =>
      simp only [] at hok
      split at hok
      next h3 => exact absurd hok (by simp)
      next h3 =>
        refine ⟨by omega, by simpa using h2, ?_⟩
        rw [drainPlan_sum, rowsOf_sum] at h3
        omega

theorem remove_ok_transfers {db : DB} {part branch : Nat} {quantity : Int} {reason : String}
    {actor : Option Nat} {floc : Option Location} {act : String} {db2 : DB}
    {movs : List StockMovement}
    (hok : remove_stock_from_locations db part branch quantity reason actor floc act =
      .ok (db2, movs)) :
    db2.transfers = db.transfers := by
  obtain ⟨hq, hfl, hge⟩ := remove_ok_shape hok
  have hcore := remove_core_eq db part branch quantity reason actor floc act
    (not_le.mpr hq) hfl
  rw [hcore] at hok
  rw [if_neg (by rw [drainPlan_sum, rowsOf_sum]; omega)] at hok
  have hinj := Except.ok.inj hok
  have hdb : db2 = (sync_stock_total_from_locations
      { seedIfStock db part branch with
          stock_locations :=
            applyDrain
              (drainPlan (rowsOf (seedIfStock db part branch) part branch floc)
                quantity.toNat)
              (seedIfStock db part branch).stock_locations,
          movements := (seedIfStock db part branch).movements ++
            drainMovements part branch act reason actor
              (drainPlan (rowsOf (seedIfStock db part branch) part branch floc)
                quantity.toNat) }
      part branch) := by
    have := congrArg Prod.fst hinj
    simpa using this.symm
  rw [hdb, sync_transfers]
  exact seed_transfers db part branch

/-! ### Transfer-table update lemmas -/

theorem findT_update_self (l : List TransferRequest) (tid : Nat)
    (f : TransferRequest → TransferRequest) (hf : ∀ x, (f x).tid = x.tid) :
    (updateFirst (fun x => x.tid == tid) f l).find? (fun x => x.tid == tid) =
      (l.find? (fun x => x.tid == tid)).map f :=
  find?_updateFirst_self (by intro a; simp [hf a])

theorem findT_update_other (l : List TransferRequest) (tid tid2 : Nat)
    (f : TransferRequest → TransferRequest) (hne : tid2 ≠ tid)
    (hf : ∀ x, (f x).tid = x.tid) :
    (updateFirst (fun x => x.tid == tid) f l).find? (fun x => x.tid == tid2) =
      l.find? (fun x => x.tid == tid2) := by
  apply find?_updateFirst_disjoint
  intro a ha
  simp only [beq_iff_eq] at ha
  constructor
  · simp only [beq_iff_eq, Bool.eq_false_iff, ne_eq]
    intro hc
    exact hne (hc ▸ ha ▸ rfl)
  · simp only [beq_iff_eq, Bool.eq_false_iff, ne_eq, hf a]
    intro hc
    exact hne (hc ▸ ha ▸ rfl)

end Delta

namespace Delta

/-! ## Claim theorems -/

/-- C2: for every Stock row and optional excluded transfer id,
`Available(stock, excluding_transfer_id)` equals
`max(stock.quantity − R, 0)` over the integers, where `R` sums
`reserved_quantity` over all TransferRequests of the same part and source
branch whose status is approved, picked_up or delivered, excluding the given
transfer id; and the result is a non-negative integer. -/
theorem C2_available_formula (db : DB) (stock : Stock) (exclude_transfer_id : Option Nat) :
    ((available_stock_quantity db stock exclude_transfer_id : Nat) : Int) =
      max ((stock.quantity : Int) -
        (((db.transfers.filter (fun t =>
            t.part == stock.part && t.source_branch == stock.branch &&
            (decide (t.status = .approved) || decide (t.status = .picked_up) ||
              decide (t.status = .delivered)) &&
            (match exclude_transfer_id with
             | some e => t.tid != e
             | none => true))).map (fun t => t.reserved_quantity)).sum : Int)) 0 ∧
    0 ≤ ((available_stock_quantity db stock exclude_transfer_id : Nat) : Int) := by
  constructor
  · unfold available_stock_quantity reserved_quantity_for_part_branch activeStatus
    rw [Int.ofNat_toNat]
    simp only [Nat.cast_list_sum, List.map_map, Function.comp_def]
  · exact Int.ofNat_nonneg _

/-- C6: `RemoveStock` without a location drains the pair's positive rows in
descending-quantity order, ties broken by location code then row id (the drain
list is sorted by that key and is a permutation of the pair's positive rows);
in particular removing 8 from 7@A3 and 3@B1 leaves 0@A3 and 2@B1 with
aggregate 2 and exactly two movement rows (7 from A3, then 1 from B1). -/
theorem C6_greedy_drain_order :
    (∀ (db : DB) (part branch : Nat),
      List.Pairwise (fun a b =>
        b.quantity < a.quantity ∨
          (a.quantity = b.quantity ∧
            (codeOf db a.location < codeOf db b.location ∨
              (codeOf db a.location = codeOf db b.location ∧ a.rowId ≤ b.rowId))))
        (drainRows db part branch) ∧
      (drainRows db part branch).Perm
        (db.stock_locations.filter
          (fun r => r.part == part && r.branch == branch && decide (0 < r.quantity)))) ∧
    remove_stock_from_locations scenA_db 1 1 8 "scenario" none none "remove" =
      .ok (scenA_after, scenA_movs) ∧
    scenA_after.stock_locations =
      [{ rowId := 10, part := 1, branch := 1, location := 2, quantity := 0 },
       { rowId := 11, part := 1, branch := 1, location := 3, quantity := 2 }] ∧
    aggValue scenA_after 1 1 = 2 ∧
    scenA_movs.length = 2 ∧
    scenA_movs.map (fun m => (m.from_location, m.qty)) = [(some 2, 7), (some 3, 1)] := by
  refine ⟨?_, rfl, by decide, by decide, by decide, by decide⟩
  intro db part branch
  exact ⟨sorted_drainRows db part branch, drainRows_perm db part branch⟩

/-- C7: `RemoveStock` fails with `InsufficientStock` when the requested
quantity exceeds the removable total (the specified location's quantity when a
location is given, otherwise the pair's sum over all its StockLocation rows),
and the aborted transaction leaves the entire state exactly as before.
The `hseeded` hypothesis rules out the legacy seeding side path (the pair
already has a location row, or its aggregate reads zero). -/
theorem C7_remove_insufficient_atomic (db : DB) (part branch : Nat) (quantity : Int)
    (reason : String) (actor : Option Nat) (floc : Option Location) (act : String)
    (hq : 0 < quantity)
    (hfl : ∀ l, floc = some l → l.branch = branch)
    (hWF : WF db)
    (hseeded : (∃ r ∈ db.stock_locations, r.part = part ∧ r.branch = branch) ∨
      aggValue db part branch = 0)
    (hover : removableOf db part branch floc < quantity.toNat) :
    remove_stock_from_locations db part branch quantity reason actor floc act =
      .error .insufficientStock ∧
    commitL db (remove_stock_from_locations db part branch quantity reason actor floc act) =
      db := by
  have hnoop := seedIfStock_of_noop hseeded
  have hfl2 : floc.any (fun l => l.branch != branch) = false := by
    cases floc with
    | none => rfl
    | some l => simp [hfl l rfl]
  obtain ⟨herr, _⟩ := remove_spec db part branch quantity reason actor floc act hq hfl2 hWF
  have herr2 := herr (by rw [hnoop]; exact hover)
  refine ⟨herr2, ?_⟩
  rw [herr2]
  rfl

/-- Witness for C7: Scenario B, removing 20 from 7@A3 + 3@B1 fails and leaves
the state untouched. -/
theorem C7_witness :
    (0 : Int) < 20 ∧
    ((scenA_db.stock_locations.map (fun r => r.rowId)).Nodup ∧
      ∀ r ∈ scenA_db.stock_locations, r.rowId < scenA_db.nextId) ∧
    ((∃ r ∈ scenA_db.stock_locations, r.part = 1 ∧ r.branch = 1) ∨
      aggValue scenA_db 1 1 = 0) ∧
    removableOf scenA_db 1 1 none < (20 : Int).toNat ∧
    (remove_stock_from_locations scenA_db 1 1 20 "scenario" none none "remove" =
        .error .insufficientStock ∧
      commitL scenA_db
        (remove_stock_from_locations scenA_db 1 1 20 "scenario" none none "remove") =
        scenA_db) :=
  ⟨by decide, by decide, Or.inl (by decide), by decide,
    C7_remove_insufficient_atomic scenA_db 1 1 20 "scenario" none none "remove"
      (by decide) (fun l h => nomatch h) ⟨by decide, by decide⟩ (Or.inl (by decide))
      (by decide)⟩

/-- Counterexample for C10 as stated: with a positive aggregate and no
location rows at all, removing from the branch default location succeeds
(the legacy seeding synthesizes the row first) instead of failing with the
insufficient-stock error; and the same call against an explicit zero-quantity
row does fail, so the two situations are distinguishable. -/
theorem C10_counterexample :
    c10_db0.stock_locations = [] ∧
    remove_stock_from_locations c10_db0 1 1 5 "remove" none (some exLocU1) "remove" =
      .ok (c10_db1,
        [{ part := 1, branch := 1, qty := 5, action := "remove", from_location := some 1,
           to_location := none, reason := "remove", actor := none }]) ∧
    remove_stock_from_locations c10_dbZ 1 1 5 "remove" none (some exLocU1) "remove" =
      .error .insufficientStock :=
  ⟨rfl, rfl, rfl⟩

/-- C10 amended: provided the legacy seeding does not fire (the pair already
has some StockLocation row, or its aggregate reads zero), `RemoveStock` from a
specific location of the branch fails with the insufficient-stock error — not
a not-found error — whenever the (part, branch, location) rows sum to zero,
which covers both an absent row and a zero-quantity row identically. -/
theorem C10_amended (db : DB) (part branch : Nat) (quantity : Int) (reason : String)
    (actor : Option Nat) (fl : Location) (act : String)
    (hq : 0 < quantity) (hbr : fl.branch = branch) (hWF : WF db)
    (hseeded : (∃ r ∈ db.stock_locations, r.part = part ∧ r.branch = branch) ∨
      aggValue db part branch = 0)
    (hzero : locQtySum db part branch fl.locId = 0) :
    remove_stock_from_locations db part branch quantity reason actor (some fl) act =
      .error .insufficientStock := by
  have hnoop := seedIfStock_of_noop hseeded
  obtain ⟨herr, _⟩ := remove_spec db part branch quantity reason actor (some fl) act hq
    (by simp [hbr]) hWF
  apply herr
  rw [hnoop]
  show locQtySum db part branch fl.locId < quantity.toNat
  omega

/-- Witness for the amended C10: the zero-quantity-row state fails with the
insufficient-stock error. -/
theorem C10_witness :
    (0 : Int) < 5 ∧ exLocU1.branch = 1 ∧
    ((c10_dbZ.stock_locations.map (fun r => r.rowId)).Nodup ∧
      ∀ r ∈ c10_dbZ.stock_locations, r.rowId < c10_dbZ.nextId) ∧
    ((∃ r ∈ c10_dbZ.stock_locations, r.part = 1 ∧ r.branch = 1) ∨
      aggValue c10_dbZ 1 1 = 0) ∧
    locQtySum c10_dbZ 1 1 exLocU1.locId = 0 ∧
    remove_stock_from_locations c10_dbZ 1 1 5 "remove" none (some exLocU1) "remove" =
      .error .insufficientStock :=
  ⟨by decide, by decide, ⟨by decide, by decide⟩, Or.inl (by decide), by decide,
    C10_amended c10_dbZ 1 1 5 "remove" none exLocU1 "remove" (by decide) (by decide)
      ⟨by decide, by decide⟩ (Or.inl (by decide)) (by decide)⟩

theorem ensure_transfers (db : DB) (s : Stock) :
    (ensure_stock_locations_seeded_from_branch_stock db s).transfers = db.transfers := by
  unfold ensure_stock_locations_seeded_from_branch_stock
  split
  · rfl
  split
  · rfl
  simp only []
  exact (get_or_create_default_location_spec db s.branch).2.2.2.2.2.1

theorem add_ok_shape {db : DB} {part branch : Nat} {quantity : Int} {reason : String}
    {actor : Option Nat} {loc : Option Location} {act : String} {db' : DB}
    {mv : StockMovement}
    (hok : add_stock_to_location db part branch quantity reason actor loc act =
      .ok (db', mv)) :
    0 < quantity ∧ ∀ l, loc = some l → l.branch = branch := by
  unfold add_stock_to_location at hok
  split at hok
  · exact absurd hok (by simp)
  next h1 =>
    refine ⟨by omega, ?_⟩
    intro l hl
    subst hl
    simp only [] at hok
    split at hok
    · exact absurd hok (by simp)
    next h2 => simpa using h2

theorem reserved_after_update_ge (l : List TransferRequest) (t1 : TransferRequest)
    (f : TransferRequest → TransferRequest) (P : TransferRequest → Bool)
    (hfind : l.find? (fun x => x.tid == t1.tid) = some t1)
    (hP : P (f t1) = true) (hres : (f t1).reserved_quantity = t1.quantity) :
    t1.quantity ≤ ((List.filter P (updateFirst (fun x => x.tid == t1.tid) f l)).map
      (fun t => t.reserved_quantity)).sum := by
  obtain ⟨l1, l2, hsplit, hnone, hupd⟩ := find?_decomp hfind f
  rw [hupd, List.filter_append, List.filter_cons, if_pos hP, List.map_append,
    List.sum_append, List.map_cons, List.sum_cons, hres]
  omega

/-- C3: Approve on a `requested` transfer with a non-blank reason computes the
source-pair availability excluding the transfer itself; if the requested
quantity exceeds it the call fails with the insufficient-available error
carrying that availability and the transfer is left unchanged, otherwise it
succeeds and the transfer becomes `approved` with `reserved_quantity` set to
the full requested quantity, approver and timestamp recorded, and any prior
rejection fields cleared. -/
theorem C3_transfer_approve (db : DB) (tid : Nat) (reason : String) (actor now : Nat)
    (t : TransferRequest) (stock : Stock)
    (ht : findTransfer db tid = some t)
    (hst : t.status = .requested)
    (hr : is_blank reason = false)
    (hs : findStock db t.part t.source_branch = some stock) :
    (available_stock_quantity db stock (some tid) < t.quantity →
      transfer_approve db tid reason actor now =
        .error (.insufficientAvailable (available_stock_quantity db stock (some tid))) ∧
      findTransfer (commitT db (transfer_approve db tid reason actor now)) tid = some t) ∧
    (t.quantity ≤ available_stock_quantity db stock (some tid) →
      ∃ db2, transfer_approve db tid reason actor now = .ok db2 ∧
        findTransfer db2 tid = some { t with
          status := .approved, reserved_quantity := t.quantity,
          approved_by := some actor, approved_at := some now,
          rejected_by := none, rejection_reason := "", rejected_at := none }) := by
  have hstep : transfer_approve db tid reason actor now =
      (if is_blank reason = true then Except.error LedgerError.missingReason
      else if t.status ≠ TransferStatus.requested then Except.error LedgerError.conflict
      else
        match findStock db t.part t.source_branch with
        | none => Except.error LedgerError.notFound
        | some source_stock =>
          if available_stock_quantity db source_stock (some tid) < t.quantity then
            Except.error (LedgerError.insufficientAvailable
              (available_stock_quantity db source_stock (some tid)))
          else
            Except.ok
              { db with
                transfers := updateFirst (fun x => x.tid == tid)
                  (fun x =>
                    { x with
                      status := .approved, reserved_quantity := x.quantity,
                      approved_by := some actor, approved_at := some now,
                      rejected_by := none, rejection_reason := "",
                      rejected_at := none }) db.transfers }) := by
    unfold transfer_approve
    rw [ht]
  have hcore : transfer_approve db tid reason actor now =
      (if available_stock_quantity db stock (some tid) < t.quantity then
        Except.error (LedgerError.insufficientAvailable
          (available_stock_quantity db stock (some tid)))
      else
        Except.ok
          { db with
            transfers := updateFirst (fun x => x.tid == tid)
              (fun x =>
                { x with
                  status := .approved, reserved_quantity := x.quantity,
                  approved_by := some actor, approved_at := some now,
                  rejected_by := none, rejection_reason := "",
                  rejected_at := none }) db.transfers }) := by
    rw [hstep, if_neg (by simp [hr]), if_neg (by simp [hst]), hs]
  constructor
  · intro hlt
    rw [hcore, if_pos hlt]
    exact ⟨rfl, ht⟩
  · intro hge
    refine ⟨_, by rw [hcore, if_neg (not_lt.mpr hge)], ?_⟩
    show (updateFirst (fun x => x.tid == tid)
      (fun x =>
        { x with
          status := .approved, reserved_quantity := x.quantity,
          approved_by := some actor, approved_at := some now,
          rejected_by := none, rejection_reason := "",
          rejected_at := none }) db.transfers).find? (fun x => x.tid == tid) = _
    have ht2 : List.find? (fun x => x.tid == tid) db.transfers = some t := ht
    rw [findT_update_self db.transfers tid
      (fun x =>
        { x with
          status := .approved, reserved_quantity := x.quantity,
          approved_by := some actor, approved_at := some now,
          rejected_by := none, rejection_reason := "",
          rejected_at := none }) (fun x => rfl), ht2]
    rfl

/-- Witness for C3: approving the 5-unit requested transfer against a 5-unit
stock succeeds and records the approval. -/
theorem C3_witness :
    findTransfer c8_db0 1 = some exT1 ∧ exT1.status = .requested ∧
    is_blank "approve transfer" = false ∧
    findStock c8_db0 exT1.part exT1.source_branch =
      some { part := 1, branch := 1, quantity := 5 } ∧
    exT1.quantity ≤
      available_stock_quantity c8_db0 { part := 1, branch := 1, quantity := 5 } (some 1) ∧
    (∃ db2, transfer_approve c8_db0 1 "approve transfer" 9 100 = .ok db2 ∧
      findTransfer db2 1 = some { exT1 with
        status := .approved, reserved_quantity := exT1.quantity,
        approved_by := some 9, approved_at := some 100,
        rejected_by := none, rejection_reason := "", rejected_at := none }) :=
  ⟨by decide, by decide, by decide, by decide, by decide,
    (C3_transfer_approve c8_db0 1 "approve transfer" 9 100 exT1
      { part := 1, branch := 1, quantity := 5 } (by decide) (by decide) (by decide)
      (by decide)).2 (by decide)⟩

/-- C5: the transfer lifecycle follows the section-4.4 state machine: any of
the five actions whose status guard rejects the transfer's current status
fails with a conflict error leaving the transfer unchanged, and any action
that succeeds moves the transfer along one of the six legal edges
(requested to approved, approved to picked_up, picked_up to delivered,
delivered to received, requested to rejected, approved to rejected). -/
theorem C5_transition_machine (db : DB) (op : TransferOp) (t : TransferRequest)
    (ht : findTransfer db op.tid = some t)
    (hr : is_blank op.reason = false) :
    (op.admits t.status = false →
      applyTransferOp db op = .error .conflict ∧
      findTransfer (commitT db (applyTransferOp db op)) op.tid = some t) ∧
    (∀ db2, applyTransferOp db op = .ok db2 →
      ∃ t2, findTransfer db2 op.tid = some t2 ∧ allowedTransition t.status t2.status) := by
  cases op with
  | approve tid reason actor now =>
      simp only [TransferOp.tid] at ht ⊢
      simp only [TransferOp.reason] at hr
      simp only [TransferOp.admits, applyTransferOp]
      constructor
      · intro hadm
        have hst : t.status ≠ .requested := by simpa using hadm
        have herr : transfer_approve db tid reason actor now = .error .conflict := by
          unfold transfer_approve
          rw [ht]
          simp only []
          rw [if_neg (by simp [hr]), if_pos hst]
        exact ⟨herr, by rw [herr]; exact ht⟩
      · intro db2 hok
        unfold transfer_approve at hok
        rw [ht] at hok
        simp only [] at hok
        rw [if_neg (by simp [hr])] at hok
        split at hok
        · exact absurd hok (by simp)
        next hst =>
          have hst2 : t.status = .requested := not_not.mp hst
          cases hfs : findStock db t.part t.source_branch with
          | none => rw [hfs] at hok; exact absurd hok (by simp)
          | some stock =>
              rw [hfs] at hok
              simp only [] at hok
              split at hok
              · exact absurd hok (by simp)
              · have hdb2 := Except.ok.inj hok
                refine ⟨{ t with
                    status := .approved, reserved_quantity := t.quantity,
                    approved_by := some actor, approved_at := some now,
                    rejected_by := none, rejection_reason := "",
                    rejected_at := none }, ?_, Or.inl ⟨hst2, rfl⟩⟩
                rw [← hdb2]
                have ht2 : List.find? (fun x => x.tid == tid) db.transfers = some t := ht
                show (updateFirst (fun x => x.tid == tid)
                  (fun x =>
                    { x with
                      status := .approved, reserved_quantity := x.quantity,
                      approved_by := some actor, approved_at := some now,
                      rejected_by := none, rejection_reason := "",
                      rejected_at := none }) db.transfers).find?
                  (fun x => x.tid == tid) = _
                rw [findT_update_self db.transfers tid
                  (fun x =>
                    { x with
                      status := .approved, reserved_quantity := x.quantity,
                      approved_by := some actor, approved_at := some now,
                      rejected_by := none, rejection_reason := "",
                      rejected_at := none }) (fun x => rfl), ht2]
                rfl
  | reject tid reason actor now =>
      simp only [TransferOp.tid] at ht ⊢
      simp only [TransferOp.reason] at hr
      simp only [TransferOp.admits, applyTransferOp]
      constructor
      · intro hadm
        have hg2 : ¬(t.status = .requested) ∧ ¬(t.status = .approved) := by simpa using hadm
        have hg : ¬(t.status = .requested ∨ t.status = .approved) := not_or.mpr hg2
        have herr : transfer_reject db tid reason actor now = .error .conflict := by
          unfold transfer_reject
          rw [ht]
          simp only []
          rw [if_neg (by simp [hr]), if_pos hg]
        exact ⟨herr, by rw [herr]; exact ht⟩
      · intro db2 hok
        unfold transfer_reject at hok
        rw [ht] at hok
        simp only [] at hok
        rw [if_neg (by simp [hr])] at hok
        split at hok
        · exact absurd hok (by simp)
        next hst =>
          have hor : t.status = .requested ∨ t.status = .approved := not_not.mp hst
          have hdb2 := Except.ok.inj hok
          refine ⟨{ t with
              status := .rejected, reserved_quantity := 0,
              rejected_by := some actor, rejected_at := some now,
              rejection_reason := strip reason }, ?_, ?_⟩
          · rw [← hdb2]
            have ht2 : List.find? (fun x => x.tid == tid) db.transfers = some t := ht
            show (updateFirst (fun x => x.tid == tid)
              (fun x =>
                { x with
                  status := .rejected, reserved_quantity := 0,
                  rejected_by := some actor, rejected_at := some now,
                  rejection_reason := strip reason }) db.transfers).find?
              (fun x => x.tid == tid) = _
            rw [findT_update_self db.transfers tid
              (fun x =>
                { x with
                  status := .rejected, reserved_quantity := 0,
                  rejected_by := some actor, rejected_at := some now,
                  rejection_reason := strip reason }) (fun x => rfl), ht2]
            rfl
          · cases hor with
            | inl h => exact Or.inr (Or.inr (Or.inr (Or.inr (Or.inl ⟨h, rfl⟩))))
            | inr h => exact Or.inr (Or.inr (Or.inr (Or.inr (Or.inr ⟨h, rfl⟩))))
  | pickup tid reason actor now =>
      simp only [TransferOp.tid] at ht ⊢
      simp only [TransferOp.reason] at hr
      simp only [TransferOp.admits, applyTransferOp]
      constructor
      · intro hadm
        have hst : t.status ≠ .approved := by simpa using hadm
        have herr : transfer_mark_picked_up db tid reason actor now = .error .conflict := by
          unfold transfer_mark_picked_up
          rw [ht]
          simp only []
          rw [if_neg (by simp [hr]), if_pos hst]
        exact ⟨herr, by rw [herr]; exact ht⟩
      · intro db2 hok
        unfold transfer_mark_picked_up at hok
        rw [ht] at hok
        simp only [] at hok
        rw [if_neg (by simp [hr])] at hok
        split at hok
        · exact absurd hok (by simp)
        next hst =>
          have hst2 : t.status = .approved := not_not.mp hst
          have hdb2 := Except.ok.inj hok
          refine ⟨{ t with
              status := .picked_up, driver := some actor,
              picked_up_at := some now }, ?_, Or.inr (Or.inl ⟨hst2, rfl⟩)⟩
          rw [← hdb2]
          have ht2 : List.find? (fun x => x.tid == tid) db.transfers = some t := ht
          show (updateFirst (fun x => x.tid == tid)
            (fun x =>
              { x with
                status := .picked_up, driver := some actor,
                picked_up_at := some now }) db.transfers).find?
            (fun x => x.tid == tid) = _
          rw [findT_update_self db.transfers tid
            (fun x =>
              { x with
                status := .picked_up, driver := some actor,
                picked_up_at := some now }) (fun x => rfl), ht2]
          rfl
  | deliver tid reason actor now =>
      simp only [TransferOp.tid] at ht ⊢
      simp only [TransferOp.reason] at hr
      simp only [TransferOp.admits, applyTransferOp]
      constructor
      · intro hadm
        have hst : t.status ≠ .picked_up := by simpa using hadm
        have herr : transfer_mark_delivered db tid reason actor now = .error .conflict := by
          unfold transfer_mark_delivered
          rw [ht]
          simp only []
          rw [if_neg (by simp [hr]), if_pos hst]
        exact ⟨herr, by rw [herr]; exact ht⟩
      · intro db2 hok
        unfold transfer_mark_delivered at hok
        rw [ht] at hok
        simp only [] at hok
        rw [if_neg (by simp [hr])] at hok
        split at hok
        · exact absurd hok (by simp)
        next hst =>
          have hst2 : t.status = .picked_up := not_not.mp hst
          have hdb2 := Except.ok.inj hok
          refine ⟨{ t with
              status := .delivered, delivered_at := some now }, ?_,
            Or.inr (Or.inr (Or.inl ⟨hst2, rfl⟩))⟩
          rw [← hdb2]
          have ht2 : List.find? (fun x => x.tid == tid) db.transfers = some t := ht
          show (updateFirst (fun x => x.tid == tid)
            (fun x =>
              { x with
                status := .delivered, delivered_at := some now }) db.transfers).find?
            (fun x => x.tid == tid) = _
          rw [findT_update_self db.transfers tid
            (fun x =>
              { x with
                status := .delivered, delivered_at := some now }) (fun x => rfl), ht2]
          rfl
  | receive tid reason actor now =>
      simp only [TransferOp.tid] at ht ⊢
      simp only [TransferOp.reason] at hr
      simp only [TransferOp.admits, applyTransferOp]
      constructor
      · intro hadm
        have hst : t.status ≠ .delivered := by simpa using hadm
        have herr : transfer_confirm_receive db tid reason actor now = .error .conflict := by
          unfold transfer_confirm_receive
          rw [ht]
          simp only []
          rw [if_neg (by simp [hr]), if_pos hst]
        exact ⟨herr, by rw [herr]; exact ht⟩
      · intro db2 hok
        unfold transfer_confirm_receive at hok
        rw [ht] at hok
        simp only [] at hok
        rw [if_neg (by simp [hr])] at hok
        split at hok
        · exact absurd hok (by simp)
        next hst =>
          have hst2 : t.status = .delivered := not_not.mp hst
          cases hfs : findStock db t.part t.source_branch with
          | none => rw [hfs] at hok; exact absurd hok (by simp)
          | some source_stock =>
              rw [hfs] at hok
              simp only [] at hok
              split at hok
              · exact absurd hok (by simp)
              next hqt =>
                split at hok
                next e heqr => exact absurd hok (by simp)
                next db3 x heqr =>
                  split at hok
                  next e heqa => exact absurd hok (by simp)
                  next db4 mv heqa =>
                    have hdb2 := Except.ok.inj hok
                    have htr4 : db4.transfers = db3.transfers := add_ok_transfers heqa
                    have htr3 := remove_ok_transfers heqr
                    have htrE : ((if (findStock db t.part t.destination_branch).isSome then db
                        else
                          { db with
                            stocks := db.stocks ++
                              [{ part := t.part, branch := t.destination_branch,
                                 quantity := 0 }] }) : DB).transfers = db.transfers := by
                      split <;> rfl
                    rw [ensure_transfers, htrE] at htr3
                    refine ⟨{ t with
                        status := .received, reserved_quantity := 0,
                        received_by := some actor, received_at := some now }, ?_,
                      Or.inr (Or.inr (Or.inr (Or.inl ⟨hst2, rfl⟩)))⟩
                    rw [← hdb2]
                    have ht2 : List.find? (fun x => x.tid == tid) db.transfers = some t := ht
                    show (updateFirst (fun x => x.tid == tid)
                      (fun x =>
                        { x with
                          status := .received, reserved_quantity := 0,
                          received_by := some actor, received_at := some now })
                      db4.transfers).find? (fun x => x.tid == tid) = _
                    rw [htr4, htr3]
                    rw [findT_update_self db.transfers tid
                      (fun x =>
                        { x with
                          status := .received, reserved_quantity := 0,
                          received_by := some actor, received_at := some now })
                      (fun x => rfl), ht2]
                    rfl

/-- Witness for C5: approving the requested 5-unit transfer succeeds and moves
it along a legal edge. -/
theorem C5_witness :
    findTransfer c8_db0 1 = some exT1 ∧ is_blank "approve transfer" = false ∧
    (∃ t2, findTransfer (commitT c8_db0
        (applyTransferOp c8_db0 (.approve 1 "approve transfer" 9 100))) 1 = some t2 ∧
      allowedTransition exT1.status t2.status) :=
  ⟨by decide, by decide,
    (C5_transition_machine c8_db0 (.approve 1 "approve transfer" 9 100) exT1
      (by decide) (by decide)).2
      (commitT c8_db0 (applyTransferOp c8_db0 (.approve 1 "approve transfer" 9 100)))
      (by rfl)⟩

/-- C1: after any successful AddStock, RemoveStock or MoveStock, the touched
(part, branch) pair's Stock aggregate equals the sum of its StockLocation
quantities, and every other pair that was in sync before the call is still in
sync after it (remove and move additionally assume the primary-key
well-formedness the database guarantees). -/
theorem C1_aggregate_sync :
    (∀ (db : DB) (part branch : Nat) (quantity : Int) (reason : String)
        (actor : Option Nat) (loc : Option Location) (act : String) (db' : DB)
        (mv : StockMovement),
      add_stock_to_location db part branch quantity reason actor loc act = .ok (db', mv) →
      ∀ p2 b2, (pairInSync db p2 b2 ∨ (p2 = part ∧ b2 = branch)) → pairInSync db' p2 b2) ∧
    (∀ (db : DB) (part branch : Nat) (quantity : Int) (reason : String)
        (actor : Option Nat) (floc : Option Location) (act : String) (db' : DB)
        (movs : List StockMovement),
      WF db →
      remove_stock_from_locations db part branch quantity reason actor floc act =
        .ok (db', movs) →
      ∀ p2 b2, (pairInSync db p2 b2 ∨ (p2 = part ∧ b2 = branch)) → pairInSync db' p2 b2) ∧
    (∀ (db : DB) (part branch : Nat) (quantity : Int)
        (from_location to_location : Location) (reason : String) (actor : Option Nat)
        (act : String) (db' : DB) (mv : StockMovement),
      WF db →
      move_stock_between_locations db part branch quantity from_location to_location
        reason actor act = .ok (db', mv) →
      ∀ p2 b2, (pairInSync db p2 b2 ∨ (p2 = part ∧ b2 = branch)) → pairInSync db' p2 b2) := by
  refine ⟨?_, ?_, ?_⟩
  · intro db part branch quantity reason actor loc act db' mv hok p2 b2 hpre
    obtain ⟨hq, hloc⟩ := add_ok_shape hok
    obtain ⟨dbA, mvA, heq, hA1, hA2, hA3, hrest⟩ :=
      add_spec db part branch quantity reason actor loc act hq hloc
    have hda : dbA = db' :=
      (Prod.mk.injEq dbA mvA db' mv ▸ Except.ok.inj (heq.symm.trans hok)).1
    by_cases hc : p2 = part ∧ b2 = branch
    · obtain ⟨h1, h2⟩ := hc
      subst h1
      subst h2
      rw [← hda]
      exact hA1
    · rcases hpre with hpre | hpre
      · show aggValue db' p2 b2 = locSum db' p2 b2
        rw [← hda, (hA3 p2 b2 hc).1, (hA3 p2 b2 hc).2]
        exact hpre
      · exact absurd hpre hc
  · intro db part branch quantity reason actor floc act db' movs hWF hok p2 b2 hpre
    obtain ⟨hq, hfl, hge⟩ := remove_ok_shape hok
    obtain ⟨-, hsucc⟩ := remove_spec db part branch quantity reason actor floc act hq hfl hWF
    obtain ⟨db2, movs2, heq, hs1, hls, hagg, hfr, hrest⟩ := hsucc hge
    have hda : db2 = db' :=
      (Prod.mk.injEq db2 movs2 db' movs ▸ Except.ok.inj (heq.symm.trans hok)).1
    by_cases hc : p2 = part ∧ b2 = branch
    · obtain ⟨h1, h2⟩ := hc
      subst h1
      subst h2
      rw [← hda]
      exact hs1
    · rcases hpre with hpre | hpre
      · show aggValue db' p2 b2 = locSum db' p2 b2
        rw [← hda, (hfr p2 b2 hc).1, (hfr p2 b2 hc).2]
        exact hpre
      · exact absurd hpre hc
  · intro db part branch quantity from_location to_location reason actor act db' mv hWF hok
      p2 b2 hpre
    obtain ⟨hs1, hfr⟩ := move_preserves db part branch quantity from_location to_location
      reason actor act db' mv hWF hok
    by_cases hc : p2 = part ∧ b2 = branch
    · obtain ⟨h1, h2⟩ := hc
      subst h1
      subst h2
      exact hs1
    · rcases hpre with hpre | hpre
      · show aggValue db' p2 b2 = locSum db' p2 b2
        rw [(hfr p2 b2 hc).1, (hfr p2 b2 hc).2]
        exact hpre
      · exact absurd hpre hc

/-- Witness for C1: Scenario A's remove keeps the pair's aggregate equal to
its location sum. -/
theorem C1_witness :
    WF scenA_db ∧
    remove_stock_from_locations scenA_db 1 1 8 "scenario" none none "remove" =
      .ok (scenA_after, scenA_movs) ∧
    pairInSync scenA_after 1 1 :=
  ⟨⟨by decide, by decide⟩, rfl,
    C1_aggregate_sync.2.1 scenA_db 1 1 8 "scenario" none none "remove" scenA_after
      scenA_movs ⟨by decide, by decide⟩ rfl 1 1 (Or.inr ⟨rfl, rfl⟩)⟩

/-- C9: under the serialized execution the row locks impose, two approvals
against the same source stock cannot oversell: if the on-hand quantity is less
than the two requested quantities combined and the first Approve succeeds,
the second Approve observes the reservation just placed and fails with the
insufficient-available error rather than over-reserving. -/
theorem C9_no_oversell (db : DB) (t1 t2 : TransferRequest) (stock : Stock)
    (r1 r2 : String) (a1 n1 a2 n2 : Nat) (db1 : DB)
    (ht1 : findTransfer db t1.tid = some t1)
    (ht2 : findTransfer db t2.tid = some t2)
    (hne : t2.tid ≠ t1.tid)
    (hpart : t2.part = t1.part)
    (hbr : t2.source_branch = t1.source_branch)
    (hst2 : t2.status = .requested)
    (hr2 : is_blank r2 = false)
    (hq2 : 0 < t2.quantity)
    (hs : findStock db t1.part t1.source_branch = some stock)
    (hover : stock.quantity < t1.quantity + t2.quantity)
    (hok : transfer_approve db t1.tid r1 a1 n1 = .ok db1) :
    available_stock_quantity db1 stock (some t2.tid) < t2.quantity ∧
    transfer_approve db1 t2.tid r2 a2 n2 =
      .error (.insufficientAvailable (available_stock_quantity db1 stock (some t2.tid))) := by
  obtain ⟨hsp, hsb⟩ := findStock_eq_some_pair hs
  unfold transfer_approve at hok
  rw [ht1] at hok
  simp only [] at hok
  split at hok
  next h1 => exact absurd hok (by simp)
  next h1 =>
  split at hok
  next h2 => exact absurd hok (by simp)
  next h2 =>
  rw [hs] at hok
  simp only [] at hok
  split at hok
  next h3 => exact absurd hok (by simp)
  next h3 =>
  have hdb1 := Except.ok.inj hok
  have hle : t1.quantity ≤
      reserved_quantity_for_part_branch db1 stock.part stock.branch (some t2.tid) := by
    rw [← hdb1]
    show t1.quantity ≤ ((List.filter
      (fun t => t.part == stock.part && t.source_branch == stock.branch &&
        activeStatus t.status && (t.tid != t2.tid))
      (updateFirst (fun x => x.tid == t1.tid)
        (fun x =>
          { x with
            status := TransferStatus.approved, reserved_quantity := x.quantity,
            approved_by := some a1, approved_at := some n1, rejected_by := none,
            rejection_reason := "", rejected_at := none }) db.transfers)).map
      (fun t => t.reserved_quantity)).sum
    exact reserved_after_update_ge db.transfers t1
      (fun x =>
        { x with
          status := TransferStatus.approved, reserved_quantity := x.quantity,
          approved_by := some a1, approved_at := some n1, rejected_by := none,
          rejection_reason := "", rejected_at := none })
      (fun t => t.part == stock.part && t.source_branch == stock.branch &&
        activeStatus t.status && (t.tid != t2.tid))
      ht1 (by simp [activeStatus, hsp, hsb, Ne.symm hne]) rfl
  have hav2 : available_stock_quantity db1 stock (some t2.tid) < t2.quantity := by
    have hdef : available_stock_quantity db1 stock (some t2.tid) =
        ((stock.quantity : Int) -
          (reserved_quantity_for_part_branch db1 stock.part stock.branch
            (some t2.tid) : Int)).toNat := rfl
    omega
  refine ⟨hav2, ?_⟩
  have hfind2 : findTransfer db1 t2.tid = some t2 := by
    rw [← hdb1]
    show List.find? (fun x => x.tid == t2.tid)
      (updateFirst (fun x => x.tid == t1.tid)
        (fun x =>
          { x with
            status := TransferStatus.approved, reserved_quantity := x.quantity,
            approved_by := some a1, approved_at := some n1, rejected_by := none,
            rejection_reason := "", rejected_at := none }) db.transfers) = some t2
    rw [findT_update_other db.transfers t1.tid t2.tid
      (fun x =>
        { x with
          status := TransferStatus.approved, reserved_quantity := x.quantity,
          approved_by := some a1, approved_at := some n1, rejected_by := none,
          rejection_reason := "", rejected_at := none }) hne (fun x => rfl)]
    exact ht2
  have hfs2 : findStock db1 t2.part t2.source_branch = some stock := by
    rw [← hdb1, hpart, hbr]
    exact hs
  unfold transfer_approve
  rw [hfind2]
  simp only []
  rw [if_neg (by simp [hr2]), if_neg (by simp [hst2]), hfs2]
  simp only []
  rw [if_pos hav2]

/-- Witness for C9: with 5 units on hand, approving the 5-unit transfer first
makes the 3-unit approval fail with the insufficient-available error. -/
theorem C9_witness :
    findTransfer c9_db0 1 = some exT1 ∧ findTransfer c9_db0 2 = some exT2 ∧
    (2 : Nat) ≠ 1 ∧ exT2.status = .requested ∧ is_blank "second" = false ∧
    0 < exT2.quantity ∧
    findStock c9_db0 1 1 = some { part := 1, branch := 1, quantity := 5 } ∧
    (5 : Nat) < exT1.quantity + exT2.quantity ∧
    (available_stock_quantity
        (commitT c9_db0 (transfer_approve c9_db0 1 "first" 9 100))
        { part := 1, branch := 1, quantity := 5 } (some 2) < exT2.quantity ∧
      transfer_approve (commitT c9_db0 (transfer_approve c9_db0 1 "first" 9 100))
          2 "second" 9 101 =
        .error (.insufficientAvailable (available_stock_quantity
          (commitT c9_db0 (transfer_approve c9_db0 1 "first" 9 100))
          { part := 1, branch := 1, quantity := 5 } (some 2)))) :=
  ⟨by decide, by decide, by decide, by decide, by decide, by decide, by decide, by decide,
    C9_no_oversell c9_db0 exT1 exT2 { part := 1, branch := 1, quantity := 5 }
      "first" "second" 9 100 9 101
      (commitT c9_db0 (transfer_approve c9_db0 1 "first" 9 100))
      (by decide) (by decide) (by decide) (by decide) (by decide) (by decide)
      (by decide) (by decide) (by decide) (by decide) (by rfl)⟩

/-- Counterexample for C8 as stated: after a successful Approve of the 5-unit
transfer, an intervening on-hand-only RemoveStock (the scan-remove path checks
only on-hand quantity, never availability) succeeds and drives on-hand to 2
while the reservation of 5 is still active, so Available (clamped to 0) plus
Reserved is 5, not the stock quantity 2. -/
theorem C8_counterexample :
    transfer_approve c8_db0 1 "approve transfer" 9 100 = .ok c8_db1 ∧
    (∃ movs, remove_stock_from_locations c8_db1 1 1 3 "stock correction" none none
        "scan_remove" = .ok (c8_db2, movs)) ∧
    (findTransfer c8_db2 1).map (fun t => t.status) = some TransferStatus.approved ∧
    findStock c8_db2 1 1 = some { part := 1, branch := 1, quantity := 2 } ∧
    available_stock_quantity c8_db2 { part := 1, branch := 1, quantity := 2 } none +
      reserved_quantity_for_part_branch c8_db2 1 1 none ≠ 2 :=
  ⟨rfl, ⟨_, rfl⟩, by decide, by decide, by decide⟩

/-- C8 amended: the reservation identity Available(x) + ReservedQuantity(x) =
Stock.quantity holds for a stock row exactly while the pair's total active
reservation does not exceed the on-hand quantity; operations that bypass the
availability check (such as a scan remove) can push on-hand below the reserved
total, after which Available clamps at zero and the identity fails. -/
theorem C8_amended (db : DB) (stock : Stock)
    (hres : reserved_quantity_for_part_branch db stock.part stock.branch none ≤
      stock.quantity) :
    available_stock_quantity db stock none +
      reserved_quantity_for_part_branch db stock.part stock.branch none =
      stock.quantity := by
  have hdef : available_stock_quantity db stock none =
      ((stock.quantity : Int) -
        (reserved_quantity_for_part_branch db stock.part stock.branch none : Int)).toNat :=
    rfl
  omega

/-- Witness for the amended C8: at the approve commit point the reservation
(5) still fits the on-hand quantity (5) and the identity holds. -/
theorem C8_witness :
    reserved_quantity_for_part_branch c8_db1 1 1 none ≤ 5 ∧
    available_stock_quantity c8_db1 { part := 1, branch := 1, quantity := 5 } none +
      reserved_quantity_for_part_branch c8_db1 1 1 none = 5 :=
  ⟨by decide, C8_amended c8_db1 { part := 1, branch := 1, quantity := 5 } (by decide)⟩

theorem ensure_movements (db : DB) (s : Stock) :
    (ensure_stock_locations_seeded_from_branch_stock db s).movements = db.movements := by
  unfold ensure_stock_locations_seeded_from_branch_stock
  split
  · rfl
  split
  · rfl
  simp only []
  exact (get_or_create_default_location_spec db s.branch).2.2.2.2.1

theorem receive_core (db D : DB) (part src dst q : Nat) (reason : String) (actor : Nat)
    (source_stock : Stock)
    (hDsl : D.stock_locations = db.stock_locations)
    (hDn : D.nextId = db.nextId)
    (hDtr : D.transfers = db.transfers)
    (hDmv : D.movements = db.movements)
    (hDst : findStock D part src = some source_stock)
    (hDsrc : pairInSync D part src)
    (hDdst : pairInSync D part dst)
    (hDaggS : aggValue D part src = aggValue db part src)
    (hDaggD : aggValue D part dst = aggValue db part dst)
    (hWF : WF db)
    (hdiff : dst ≠ src)
    (hq : 0 < q)
    (hqt : q ≤ source_stock.quantity) :
    ∃ db3 outMovs db4 inMov,
      remove_stock_from_locations (ensure_stock_locations_seeded_from_branch_stock D
        source_stock) part src (q : Int) (strip reason) (some actor) none "transfer_out" =
        .ok (db3, outMovs) ∧
      add_stock_to_location db3 part dst (q : Int) (strip reason) (some actor) none
        "transfer_in" = .ok (db4, inMov) ∧
      db4.transfers = db.transfers ∧
      aggValue db4 part dst = aggValue db part dst + q ∧
      aggValue db4 part src + q = aggValue db part src ∧
      db4.movements = db.movements ++ outMovs ++ [inMov] ∧
      (outMovs.map (fun m => m.qty)).sum = q ∧
      (∀ m ∈ outMovs, m.part = part ∧ m.branch = src ∧ m.action = "transfer_out" ∧
        m.to_location = none ∧ m.actor = some actor) ∧
      inMov.part = part ∧ inMov.branch = dst ∧ inMov.qty = q ∧
      inMov.action = "transfer_in" ∧ inMov.from_location = none ∧
      (∃ target : Location, inMov.to_location = some target.locId ∧
        target.branch = dst ∧ target.code = DEFAULT_LOCATION_CODE ∧
        target ∈ db4.locations) := by
  have hqI : (0 : Int) < (q : Int) := by exact_mod_cast hq
  have hToNat : ((q : Int)).toNat = q := by simp
  have hWFD : WF D := by
    unfold WF
    rw [hDsl, hDn]
    exact hWF
  have hE : seedIfStock D part src =
      ensure_stock_locations_seeded_from_branch_stock D source_stock :=
    seedIfStock_some hDst
  have hWFE : WF (ensure_stock_locations_seeded_from_branch_stock D source_stock) := by
    rw [← hE]
    exact WF_seedIfStock part src hWFD
  have hseedE : seedIfStock (ensure_stock_locations_seeded_from_branch_stock D source_stock)
      part src = ensure_stock_locations_seeded_from_branch_stock D source_stock := by
    rw [← hE]
    exact seedIfStock_idem D part src
  have hlocE : locSum (ensure_stock_locations_seeded_from_branch_stock D source_stock)
      part src = aggValue D part src := by
    rw [← hE]
    exact locSum_seed_of_sync D part src (Or.inl hDsrc)
  have haggDsrc : aggValue D part src = source_stock.quantity := by
    unfold aggValue
    rw [hDst]
  obtain ⟨-, hsucc⟩ := remove_spec
    (ensure_stock_locations_seeded_from_branch_stock D source_stock) part src (q : Int)
    (strip reason) (some actor) none "transfer_out" hqI rfl hWFE
  have hge : ((q : Int)).toNat ≤ removableOf
      (seedIfStock (ensure_stock_locations_seeded_from_branch_stock D source_stock)
        part src) part src none := by
    rw [hseedE]
    show ((q : Int)).toNat ≤
      locSum (ensure_stock_locations_seeded_from_branch_stock D source_stock) part src
    rw [hlocE, haggDsrc, hToNat]
    omega
  obtain ⟨db3, outMovs, heqR, hsync3, hls3, hagg3, hframe3, htr3, hmv3, hsum3, hmem3⟩ :=
    hsucc hge
  have htr3' : db3.transfers = db.transfers := by
    rw [htr3, ensure_transfers, hDtr]
  have hmv3' : db3.movements = db.movements ++ outMovs := by
    rw [hmv3, ensure_movements, hDmv]
  have haggS3 : aggValue db3 part src + q = aggValue db part src := by
    rw [hseedE, hlocE, haggDsrc, hToNat] at hagg3
    rw [← hDaggS, haggDsrc]
    exact hagg3
  have hneDst : ¬(part = part ∧ dst = src) := fun h => hdiff h.2
  have hfd := hframe3 part dst hneDst
  have hEaggD : aggValue (ensure_stock_locations_seeded_from_branch_stock D source_stock)
      part dst = aggValue D part dst := by
    rw [← hE]
    exact aggValue_seed D part src part dst
  have hElocD : locSum (ensure_stock_locations_seeded_from_branch_stock D source_stock)
      part dst = locSum D part dst := by
    rw [← hE]
    exact locSum_seed_frame D part src part dst hneDst
  have hsync3d : pairInSync db3 part dst := by
    show aggValue db3 part dst = locSum db3 part dst
    rw [hfd.1, hfd.2, hEaggD, hElocD]
    exact hDdst
  have haggD3 : aggValue db3 part dst = aggValue db part dst := by
    rw [hfd.1, hEaggD, hDaggD]
  obtain ⟨db4, inMov, heqA, hA1, hA2, hA3, hA4, target, hAm1, hAm2, hAtb, hAdef, hAsome⟩ :=
    add_spec db3 part dst (q : Int) (strip reason) (some actor) none "transfer_in" hqI
      (fun l h => nomatch h)
  refine ⟨db3, outMovs, db4, inMov, heqR, heqA, ?_, ?_, ?_, ?_, ?_, ?_, ?_, ?_, ?_, ?_,
    ?_, ?_⟩
  · rw [hA4, htr3']
  · rw [hA2 (Or.inl hsync3d), haggD3, hToNat]
  · rw [(hA3 part src (fun h => hdiff h.2.symm)).1]
    exact haggS3
  · rw [hAm2, hAm1, hmv3']
  · rw [hsum3, hToNat]
  · exact hmem3
  · rw [hAm2]
  · rw [hAm2]
  · rw [hAm2]
    show ((q : Int)).toNat = q
    exact hToNat
  · rw [hAm2]
  · rw [hAm2]
  · exact ⟨target, by rw [hAm2], hAtb, (hAdef rfl).1, (hAdef rfl).2⟩

/-- C4: ConfirmReceive on a delivered transfer re-validates the literal
on-hand source quantity (not availability): below the transfer quantity it
fails with the insufficient-stock error; any failure leaves the state
untouched with the transfer still delivered and its reservation intact; on
success it drains exactly the quantity from the source branch, adds it to the
destination branch's default location so the destination aggregate grows by
exactly the quantity and the source aggregate shrinks by it, flips the
transfer to received with reserved_quantity 0 recording actor and timestamp,
and appends the transfer_out movements followed by the transfer_in movement. -/
theorem C4_confirm_receive (db : DB) (tid : Nat) (reason : String) (actor now : Nat)
    (t : TransferRequest) (source_stock : Stock)
    (ht : findTransfer db tid = some t)
    (hst : t.status = .delivered)
    (hr : is_blank reason = false)
    (hs : findStock db t.part t.source_branch = some source_stock)
    (hdiff : t.destination_branch ≠ t.source_branch)
    (hq : 0 < t.quantity)
    (hWF : WF db)
    (hsrc : pairInSync db t.part t.source_branch)
    (hdst : pairInSync db t.part t.destination_branch) :
    (source_stock.quantity < t.quantity →
      transfer_confirm_receive db tid reason actor now = .error .insufficientStock) ∧
    (∀ e, transfer_confirm_receive db tid reason actor now = .error e →
      commitT db (transfer_confirm_receive db tid reason actor now) = db ∧
      findTransfer (commitT db (transfer_confirm_receive db tid reason actor now)) tid =
        some t) ∧
    (t.quantity ≤ source_stock.quantity →
      ∃ db', transfer_confirm_receive db tid reason actor now = .ok db' ∧
        aggValue db' t.part t.destination_branch =
          aggValue db t.part t.destination_branch + t.quantity ∧
        aggValue db' t.part t.source_branch + t.quantity =
          aggValue db t.part t.source_branch ∧
        findTransfer db' tid = some { t with
          status := .received, reserved_quantity := 0,
          received_by := some actor, received_at := some now } ∧
        (∃ outMovs inMov, db'.movements = db.movements ++ outMovs ++ [inMov] ∧
          (outMovs.map (fun m => m.qty)).sum = t.quantity ∧
          (∀ m ∈ outMovs, m.part = t.part ∧ m.branch = t.source_branch ∧
            m.action = "transfer_out" ∧ m.to_location = none) ∧
          inMov.part = t.part ∧ inMov.branch = t.destination_branch ∧
          inMov.qty = t.quantity ∧ inMov.action = "transfer_in" ∧
          (∃ target : Location, inMov.to_location = some target.locId ∧
            target.branch = t.destination_branch ∧
            target.code = DEFAULT_LOCATION_CODE ∧ target ∈ db'.locations))) := by
  refine ⟨?_, ?_, ?_⟩
  · intro hlt
    unfold transfer_confirm_receive
    rw [ht]
    simp only []
    rw [if_neg (by simp [hr]), if_neg (by simp [hst]), hs]
    simp only []
    rw [if_pos hlt]
  · intro e he
    constructor
    · rw [he]
      rfl
    · rw [he]
      exact ht
  · intro hge
    unfold transfer_confirm_receive
    rw [ht]
    simp only []
    rw [if_neg (by simp [hr]), if_neg (by simp [hst]), hs]
    simp only []
    rw [if_neg (not_lt.mpr hge)]
    have ht2 : List.find? (fun x => x.tid == tid) db.transfers = some t := ht
    by_cases hc : (findStock db t.part t.destination_branch).isSome = true
    · rw [if_pos hc]
      obtain ⟨db3, outMovs, db4, inMov, heqR, heqA, htr, haggD, haggS, hmvs, hsum, hout,
        hip, hib, hiq, hia, hif, target, hito, htb, htc, htm⟩ :=
        receive_core db db t.part t.source_branch t.destination_branch t.quantity reason
          actor source_stock rfl rfl rfl rfl hs hsrc hdst rfl rfl hWF hdiff hq hge
      rw [heqR]
      simp only []
      rw [heqA]
      simp only []
      refine ⟨_, rfl, ?_, ?_, ?_, ?_⟩
      · show aggValue db4 t.part t.destination_branch =
          aggValue db t.part t.destination_branch + t.quantity
        exact haggD
      · show aggValue db4 t.part t.source_branch + t.quantity =
          aggValue db t.part t.source_branch
        exact haggS
      · show (updateFirst (fun x => x.tid == tid)
          (fun x =>
            { x with
              status := .received, reserved_quantity := 0,
              received_by := some actor, received_at := some now })
          db4.transfers).find? (fun x => x.tid == tid) = _
        rw [htr]
        rw [findT_update_self db.transfers tid
          (fun x =>
            { x with
              status := .received, reserved_quantity := 0,
              received_by := some actor, received_at := some now }) (fun x => rfl), ht2]
        rfl
      · refine ⟨outMovs, inMov, ?_, hsum, ?_, hip, hib, hiq, hia,
          target, hito, htb, htc, ?_⟩
        · show db4.movements = db.movements ++ outMovs ++ [inMov]
          exact hmvs
        · intro m hm
          obtain ⟨h1, h2, h3, h4, h5⟩ := hout m hm
          exact ⟨h1, h2, h3, h4⟩
        · show target ∈ db4.locations
          exact htm
    · rw [if_neg hc]
      have hfd0 : findStock db t.part t.destination_branch = none :=
        Option.not_isSome_iff_eq_none.mp hc
      have hDst : findStock
          ({ db with
            stocks := db.stocks ++
              [{ part := t.part, branch := t.destination_branch, quantity := 0 }] } : DB)
          t.part t.source_branch = some source_stock := by
        show List.find? (fun s => s.part == t.part && s.branch == t.source_branch)
          (db.stocks ++
            [{ part := t.part, branch := t.destination_branch, quantity := 0 }]) =
          some source_stock
        rw [List.find?_append,
          show List.find? (fun s => s.part == t.part && s.branch == t.source_branch)
            db.stocks = some source_stock from hs]
        rfl
      have hfDd : findStock
          ({ db with
            stocks := db.stocks ++
              [{ part := t.part, branch := t.destination_branch, quantity := 0 }] } : DB)
          t.part t.destination_branch =
          some { part := t.part, branch := t.destination_branch, quantity := 0 } := by
        show List.find? (fun s => s.part == t.part && s.branch == t.destination_branch)
          (db.stocks ++
            [{ part := t.part, branch := t.destination_branch, quantity := 0 }]) = _
        rw [List.find?_append,
          show List.find? (fun s => s.part == t.part && s.branch == t.destination_branch)
            db.stocks = none from hfd0]
        simp
      have hDaggS : aggValue
          ({ db with
            stocks := db.stocks ++
              [{ part := t.part, branch := t.destination_branch, quantity := 0 }] } : DB)
          t.part t.source_branch = aggValue db t.part t.source_branch := by
        unfold aggValue
        rw [hDst, hs]
      have hDaggD : aggValue
          ({ db with
            stocks := db.stocks ++
              [{ part := t.part, branch := t.destination_branch, quantity := 0 }] } : DB)
          t.part t.destination_branch = aggValue db t.part t.destination_branch := by
        unfold aggValue
        rw [hfDd, hfd0]
      have hDsrc : pairInSync
          ({ db with
            stocks := db.stocks ++
              [{ part := t.part, branch := t.destination_branch, quantity := 0 }] } : DB)
          t.part t.source_branch := by
        show aggValue _ t.part t.source_branch = locSum _ t.part t.source_branch
        rw [hDaggS, locSum_eq_of_sl (rfl :
          ({ db with
            stocks := db.stocks ++
              [{ part := t.part, branch := t.destination_branch, quantity := 0 }] } :
            DB).stock_locations = db.stock_locations) t.part t.source_branch]
        exact hsrc
      have hDdst : pairInSync
          ({ db with
            stocks := db.stocks ++
              [{ part := t.part, branch := t.destination_branch, quantity := 0 }] } : DB)
          t.part t.destination_branch := by
        show aggValue _ t.part t.destination_branch = locSum _ t.part t.destination_branch
        rw [hDaggD, locSum_eq_of_sl (rfl :
          ({ db with
            stocks := db.stocks ++
              [{ part := t.part, branch := t.destination_branch, quantity := 0 }] } :
            DB).stock_locations = db.stock_locations) t.part t.destination_branch]
        exact hdst
      obtain ⟨db3, outMovs, db4, inMov, heqR, heqA, htr, haggD, haggS, hmvs, hsum, hout,
        hip, hib, hiq, hia, hif, target, hito, htb, htc, htm⟩ :=
        receive_core db
          ({ db with
            stocks := db.stocks ++
              [{ part := t.part, branch := t.destination_branch, quantity := 0 }] } : DB)
          t.part t.source_branch t.destination_branch t.quantity reason actor source_stock
          rfl rfl rfl rfl hDst hDsrc hDdst hDaggS hDaggD hWF hdiff hq hge
      rw [heqR]
      simp only []
      rw [heqA]
      simp only []
      refine ⟨_, rfl, ?_, ?_, ?_, ?_⟩
      · show aggValue db4 t.part t.destination_branch =
          aggValue db t.part t.destination_branch + t.quantity
        exact haggD
      · show aggValue db4 t.part t.source_branch + t.quantity =
          aggValue db t.part t.source_branch
        exact haggS
      · show (updateFirst (fun x => x.tid == tid)
          (fun x =>
            { x with
              status := .received, reserved_quantity := 0,
              received_by := some actor, received_at := some now })
          db4.transfers).find? (fun x => x.tid == tid) = _
        rw [htr]
        rw [findT_update_self db.transfers tid
          (fun x =>
            { x with
              status := .received, reserved_quantity := 0,
              received_by := some actor, received_at := some now }) (fun x => rfl), ht2]
        rfl
      · refine ⟨outMovs, inMov, ?_, hsum, ?_, hip, hib, hiq, hia,
          target, hito, htb, htc, ?_⟩
        · show db4.movements = db.movements ++ outMovs ++ [inMov]
          exact hmvs
        · intro m hm
          obtain ⟨h1, h2, h3, h4, h5⟩ := hout m hm
          exact ⟨h1, h2, h3, h4⟩
        · show target ∈ db4.locations
          exact htm

/-- Witness for C4: receiving the delivered 5-unit transfer out of branch 1
into branch 2 succeeds with all the stated effects. -/
theorem C4_witness :
    findTransfer c4_db0 1 = some exT3 ∧
    exT3.status = .delivered ∧
    is_blank "received" = false ∧
    findStock c4_db0 exT3.part exT3.source_branch =
      some { part := 1, branch := 1, quantity := 5 } ∧
    exT3.destination_branch ≠ exT3.source_branch ∧
    0 < exT3.quantity ∧
    aggValue c4_db0 exT3.part exT3.source_branch =
      locSum c4_db0 exT3.part exT3.source_branch ∧
    aggValue c4_db0 exT3.part exT3.destination_branch =
      locSum c4_db0 exT3.part exT3.destination_branch ∧
    exT3.quantity ≤ (5 : Nat) ∧
    (∃ db', transfer_confirm_receive c4_db0 1 "received" 9 130 = .ok db' ∧
      aggValue db' exT3.part exT3.destination_branch =
        aggValue c4_db0 exT3.part exT3.destination_branch + exT3.quantity ∧
      aggValue db' exT3.part exT3.source_branch + exT3.quantity =
        aggValue c4_db0 exT3.part exT3.source_branch ∧
      findTransfer db' 1 = some { exT3 with
        status := .received, reserved_quantity := 0,
        received_by := some 9, received_at := some 130 } ∧
      (∃ outMovs inMov, db'.movements = c4_db0.movements ++ outMovs ++ [inMov] ∧
        (outMovs.map (fun m => m.qty)).sum = exT3.quantity ∧
        (∀ m ∈ outMovs, m.part = exT3.part ∧ m.branch = exT3.source_branch ∧
          m.action = "transfer_out" ∧ m.to_location = none) ∧
        inMov.part = exT3.part ∧ inMov.branch = exT3.destination_branch ∧
        inMov.qty = exT3.quantity ∧ inMov.action = "transfer_in" ∧
        (∃ target : Location, inMov.to_location = some target.locId ∧
          target.branch = exT3.destination_branch ∧
          target.code = DEFAULT_LOCATION_CODE ∧ target ∈ db'.locations))) :=
  ⟨by decide, by decide, by decide, by decide, by decide, by decide, by decide, by decide,
    by decide,
    (C4_confirm_receive c4_db0 1 "received" 9 130 exT3
      { part := 1, branch := 1, quantity := 5 }
      (by decide) (by decide) (by decide) (by decide) (by decide) (by decide)
      ⟨by decide, by decide⟩ (by unfold pairInSync; decide)
      (by unfold pairInSync; decide)).2.2 (by decide)⟩

end Delta
